import Mathlib

/-!
Verification development for the Fintruth ingestion-and-extraction pipeline.

The TypeScript sources are shallowly embedded: pure functions become Lean
functions over `List`/`String`; JavaScript runtime primitives used by the
code (String.prototype.trim, split-on-whitespace word counting,
String.prototype.includes, toLowerCase, JSON.parse, truthiness, String(x)
conversion) are modelled as executable Lean functions; effectful functions
become explicit state passing, with external collaborators (the YouTube
APIs, the Gemini model call, the Prisma store) supplied as function-valued
parameters and thrown exceptions modelled with `Except`/`Option`.
JavaScript numbers are modelled as exact rationals (`Rat`); no property
verified here depends on floating-point rounding.
-/

deriving instance DecidableEq for Except

namespace Fintruth

/-! ## JavaScript string primitives used by the sources -/

/-- Models JavaScript String.prototype.trim at the character-list level:
remove leading and trailing whitespace. -/
def trimChars (cs : List Char) : List Char :=
  ((cs.dropWhile Char.isWhitespace).reverse.dropWhile Char.isWhitespace).reverse

/-- Models JavaScript String.prototype.trim. -/
def jsTrim (s : String) : String :=
  String.mk (trimChars s.data)

/-- Helper for `countWords`: counts maximal non-whitespace runs, tracking
whether the previous character was inside a word. -/
def countWordsAux : List Char → Bool → Nat
  | [], _ => 0
  | c :: cs, inWord =>
    if c.isWhitespace then countWordsAux cs false
    else (if inWord then 0 else 1) + countWordsAux cs true

/-- Embeds `countWords` from segmentTranscript.ts:
`text.trim().split(/\s+/).filter(Boolean).length`, i.e. the number of
maximal non-whitespace runs in the text. -/
def countWords (text : String) : Nat :=
  countWordsAux text.data false

/-- Embeds `endsWithSentence` from segmentTranscript.ts:
`/[.!?]$/.test(text.trim())`. -/
def endsWithSentence (text : String) : Bool :=
  match (jsTrim text).data.getLast? with
  | some c => c == '.' || c == '!' || c == '?'
  | none => false

/-! ## Transcript segmentation (segmentTranscript.ts) -/

/-- A stored transcript chunk, as consumed by the segmenter (`id`, `text`,
`startTime` are the only fields the segmenter reads). -/
structure TranscriptChunk where
  id : String
  text : String
  startTime : Rat
deriving DecidableEq

/-- Embeds the `SegmentedBlock` interface. -/
structure SegmentedBlock where
  text : String
  startTime : Rat
  chunkIds : List String
deriving DecidableEq

def MIN_WORDS_PER_BLOCK : Nat := 30

def MAX_WORDS_PER_BLOCK : Nat := 120

def TARGET_CHUNKS_PER_BLOCK : Nat := 5

/-- The mutable locals of the `segmentTranscript` loop. -/
structure SegState where
  blocks : List SegmentedBlock
  currentText : String
  currentStartTime : Rat
  currentChunkIds : List String
deriving DecidableEq

/-- Embeds `currentText = currentText ? currentText + " " + chunkText : chunkText`. -/
def appendChunk (currentText chunkText : String) : String :=
  if currentText = "" then chunkText else currentText ++ " " ++ chunkText

/-- Embeds `if (i < chunks.length - 1) currentStartTime = chunks[i + 1].startTime`:
after finalizing, the next start time is the next chunk of the input when
one exists, otherwise the variable is left unchanged. -/
def nextStartTime (rest : List TranscriptChunk) (cur : Rat) : Rat :=
  match rest with
  | [] => cur
  | next :: _ => next.startTime

/-- One iteration of the `segmentTranscript` loop body at the current chunk,
where `rest` is the list of chunks after the current one (so
`rest.isEmpty` embeds `i === chunks.length - 1`). -/
def segStep (chunk : TranscriptChunk) (rest : List TranscriptChunk) (st : SegState) : SegState :=
  let chunkText := jsTrim chunk.text
  if chunkText = "" then st
  else
    let currentText := appendChunk st.currentText chunkText
    let currentChunkIds := st.currentChunkIds ++ [chunk.id]
    let wordCount := countWords currentText
    let isLastChunk := rest.isEmpty
    let hasEnoughWords := decide (wordCount ≥ MIN_WORDS_PER_BLOCK)
    let isSentenceEnd := endsWithSentence currentText
    let isTooLong := decide (wordCount ≥ MAX_WORDS_PER_BLOCK)
    let hasEnoughChunks := decide (currentChunkIds.length ≥ TARGET_CHUNKS_PER_BLOCK)
    let shouldFinalize := isLastChunk || (hasEnoughWords && (isSentenceEnd || isTooLong || hasEnoughChunks))
    if shouldFinalize && !(jsTrim currentText == "") then
      { blocks := st.blocks ++
          [{ text := jsTrim currentText
             startTime := st.currentStartTime
             chunkIds := currentChunkIds }]
        currentText := ""
        currentStartTime := nextStartTime rest st.currentStartTime
        currentChunkIds := [] }
    else
      { st with currentText := currentText, currentChunkIds := currentChunkIds }

/-- The `segmentTranscript` loop over the remaining chunks, followed by the
trailing `if (currentText.trim())` residual emission. -/
def segLoop : List TranscriptChunk → SegState → List SegmentedBlock
  | [], st =>
    if jsTrim st.currentText = "" then st.blocks
    else st.blocks ++
      [{ text := jsTrim st.currentText
         startTime := st.currentStartTime
         chunkIds := st.currentChunkIds }]
  | chunk :: rest, st => segLoop rest (segStep chunk rest st)

/-- Embeds `segmentTranscript` from segmentTranscript.ts. -/
def segmentTranscript (chunks : List TranscriptChunk) : List SegmentedBlock :=
  match chunks with
  | [] => []
  | c :: _ =>
    segLoop chunks { blocks := [], currentText := "", currentStartTime := c.startTime, currentChunkIds := [] }

/-- Embeds the loop body of `segmentByChunkCount`: take the next
`chunksPerBlock` chunks as a group, keep it when its joined trimmed text is
non-empty, and continue; faithful to the source loop for
`chunksPerBlock ≥ 1` (at 0 the JavaScript loop would not advance). -/
def segmentByChunkCountGo (chunksPerBlock : Nat) : List TranscriptChunk → List SegmentedBlock
  | [] => []
  | c :: cs =>
    let blockChunks := c :: cs.take (chunksPerBlock - 1)
    let text := String.intercalate " " (blockChunks.map fun x => jsTrim x.text)
    let restBlocks := segmentByChunkCountGo chunksPerBlock (cs.drop (chunksPerBlock - 1))
    if jsTrim text = "" then restBlocks
    else
      { text := jsTrim text
        startTime := c.startTime
        chunkIds := blockChunks.map (·.id) } :: restBlocks
termination_by l => l.length
decreasing_by
  simp only [List.length_cons, List.length_drop]
  omega

/-- Embeds `segmentByChunkCount` from segmentTranscript.ts. -/
def segmentByChunkCount (chunks : List TranscriptChunk) (chunksPerBlock : Nat := 5) : List SegmentedBlock :=
  if chunks.isEmpty then [] else segmentByChunkCountGo chunksPerBlock chunks

/-- The consecutive groups of `k` chunks visited by the `segmentByChunkCount`
loop (the last group may be smaller). -/
def chunkGroups (k : Nat) : List TranscriptChunk → List (List TranscriptChunk)
  | [] => []
  | c :: cs => (c :: cs.take (k - 1)) :: chunkGroups k (cs.drop (k - 1))
termination_by l => l.length
decreasing_by
  simp only [List.length_cons, List.length_drop]
  omega

/-! ## Lemmas about the string primitives -/

/-- The word-in-progress flag after scanning a character list. -/
def wordFlag : List Char → Bool → Bool
  | [], b => b
  | c :: cs, _ => wordFlag cs (!c.isWhitespace)

lemma countWordsAux_allWs : ∀ (cs : List Char) (b : Bool),
    (∀ c ∈ cs, c.isWhitespace) → countWordsAux cs b = 0
  | [], _, _ => rfl
  | c :: cs, b, h => by
    have hc : c.isWhitespace := h c (by simp)
    simp only [countWordsAux, hc, if_true]
    exact countWordsAux_allWs cs false fun x hx => h x (by simp [hx])

lemma countWordsAux_append (ys : List Char) : ∀ (xs : List Char) (b : Bool),
    countWordsAux (xs ++ ys) b = countWordsAux xs b + countWordsAux ys (wordFlag xs b)
  | [], b => by simp [countWordsAux, wordFlag]
  | x :: xs, b => by
    have ih0 := countWordsAux_append ys xs false
    have ih1 := countWordsAux_append ys xs true
    cases hx : x.isWhitespace
    · simp [countWordsAux, wordFlag, hx, ih1]
      omega
    · simp [countWordsAux, wordFlag, hx, ih0]

lemma countWordsAux_dropWhile : ∀ cs : List Char,
    countWordsAux (cs.dropWhile Char.isWhitespace) false = countWordsAux cs false
  | [] => rfl
  | c :: cs => by
    by_cases hc : c.isWhitespace
    · have h1 : (c :: cs).dropWhile Char.isWhitespace = cs.dropWhile Char.isWhitespace := by
        simp [List.dropWhile_cons, hc]
      have h2 : countWordsAux (c :: cs) false = countWordsAux cs false := by
        simp [countWordsAux, hc]
      rw [h1, h2]
      exact countWordsAux_dropWhile cs
    · simp [List.dropWhile_cons, hc]

lemma countWords_trimChars (cs : List Char) :
    countWordsAux (trimChars cs) false = countWordsAux cs false := by
  unfold trimChars
  set l := cs.dropWhile Char.isWhitespace with hl
  have hsplit : (l.reverse.dropWhile Char.isWhitespace).reverse ++
      (l.reverse.takeWhile Char.isWhitespace).reverse = l := by
    rw [← List.reverse_append, List.takeWhile_append_dropWhile, List.reverse_reverse]
  have hws : ∀ c ∈ (l.reverse.takeWhile Char.isWhitespace).reverse, c.isWhitespace := by
    intro c hc
    exact List.mem_takeWhile_imp (List.mem_reverse.mp hc)
  calc countWordsAux ((l.reverse.dropWhile Char.isWhitespace).reverse) false
      = countWordsAux ((l.reverse.dropWhile Char.isWhitespace).reverse) false +
          countWordsAux ((l.reverse.takeWhile Char.isWhitespace).reverse)
            (wordFlag ((l.reverse.dropWhile Char.isWhitespace).reverse) false) := by
        rw [countWordsAux_allWs _ _ hws]
        omega
    _ = countWordsAux l false := by rw [← countWordsAux_append, hsplit]
    _ = countWordsAux cs false := countWordsAux_dropWhile cs

lemma jsTrim_empty : jsTrim "" = "" := rfl

lemma countWords_jsTrim (s : String) : countWords (jsTrim s) = countWords s :=
  countWords_trimChars s.data

lemma countWords_append_space (a c : String) :
    countWords (a ++ " " ++ c) = countWords a + countWords c := by
  have hsp : (' ' : Char).isWhitespace = true := by decide
  have hdata : (" " : String).data = [' '] := rfl
  have h1 : (a ++ " " ++ c).data = a.data ++ (' ' :: c.data) := by
    simp [String.data_append, hdata]
  unfold countWords
  rw [h1, countWordsAux_append]
  simp [countWordsAux, hsp]

lemma countWords_appendChunk (a c : String) :
    countWords (appendChunk a c) = countWords a + countWords c := by
  unfold appendChunk
  by_cases h : a = ""
  · simp [h, countWords, countWordsAux]
  · simp only [h, if_false]
    exact countWords_append_space a c

lemma jsTrim_eq_empty_iff (s : String) :
    jsTrim s = "" ↔ ∀ c ∈ s.data, c.isWhitespace := by
  have hmk : jsTrim s = "" ↔ trimChars s.data = [] := by
    constructor
    · intro h
      have h2 := congrArg String.data h
      simpa [jsTrim] using h2
    · intro h
      simp [jsTrim, h]
  rw [hmk]
  unfold trimChars
  rw [List.reverse_eq_nil_iff, List.dropWhile_eq_nil_iff]
  constructor
  · intro h c hc
    have hsplit := List.takeWhile_append_dropWhile Char.isWhitespace s.data
    rw [← hsplit] at hc
    rcases List.mem_append.mp hc with h1 | h2
    · exact List.mem_takeWhile_imp h1
    · exact h c (List.mem_reverse.mpr h2)
  · intro h c hc
    exact h c (List.dropWhile_subset _ (List.mem_reverse.mp hc))

lemma exists_nonWs_of_trimChars_ne_nil (cs : List Char) (h : trimChars cs ≠ []) :
    ∃ c ∈ trimChars cs, c.isWhitespace = false := by
  have hne : (cs.dropWhile Char.isWhitespace).reverse.dropWhile Char.isWhitespace ≠ [] := by
    intro hnil
    apply h
    unfold trimChars
    rw [hnil]
    rfl
  refine ⟨((cs.dropWhile Char.isWhitespace).reverse.dropWhile Char.isWhitespace).head hne, ?_, ?_⟩
  · unfold trimChars
    exact List.mem_reverse.mpr (List.head_mem hne)
  · exact List.head_dropWhile_not Char.isWhitespace _ hne

lemma jsTrim_ne_empty_of_nonWs {s : String} {c : Char} (hc : c ∈ s.data)
    (hw : c.isWhitespace = false) : jsTrim s ≠ "" := by
  intro h
  have h2 := (jsTrim_eq_empty_iff s).mp h c hc
  rw [hw] at h2
  exact Bool.false_ne_true h2

lemma exists_nonWs_of_jsTrim_ne {s : String} (h : jsTrim s ≠ "") :
    ∃ c ∈ (jsTrim s).data, c.isWhitespace = false := by
  have hne : trimChars s.data ≠ [] := by
    intro hnil
    apply h
    simp [jsTrim, hnil]
  exact exists_nonWs_of_trimChars_ne_nil s.data hne

lemma appendChunk_jsTrim_ne {cur : String} {s : String} (h : jsTrim s ≠ "") :
    jsTrim (appendChunk cur (jsTrim s)) ≠ "" := by
  obtain ⟨c, hc, hcw⟩ := exists_nonWs_of_jsTrim_ne h
  apply @jsTrim_ne_empty_of_nonWs _ c ?_ hcw
  unfold appendChunk
  by_cases hcur : cur = ""
  · simpa [hcur] using hc
  · simp only [hcur, if_false]
    rw [String.data_append]
    exact List.mem_append.mpr (Or.inr hc)

/-! ## Claim C1: the finalization condition of segmentTranscript -/

/-- The finalization condition exactly as the claim states it, evaluated
after appending the current non-empty chunk: the chunk is the last of the
input, or the accumulated word count is at least 30 and (the accumulated
trimmed text ends in sentence punctuation, or the word count is at least
120, or the block holds at least 5 chunks). -/
def claimedFinalizeCond (chunk : TranscriptChunk) (rest : List TranscriptChunk) (st : SegState) : Prop :=
  rest = [] ∨
    (MIN_WORDS_PER_BLOCK ≤ countWords (appendChunk st.currentText (jsTrim chunk.text)) ∧
      (endsWithSentence (appendChunk st.currentText (jsTrim chunk.text)) = true ∨
       MAX_WORDS_PER_BLOCK ≤ countWords (appendChunk st.currentText (jsTrim chunk.text)) ∨
       TARGET_CHUNKS_PER_BLOCK ≤ (st.currentChunkIds ++ [chunk.id]).length))

instance (chunk : TranscriptChunk) (rest : List TranscriptChunk) (st : SegState) :
    Decidable (claimedFinalizeCond chunk rest st) := by
  unfold claimedFinalizeCond
  exact inferInstance

lemma segStep_skip {chunk : TranscriptChunk} {rest : List TranscriptChunk} {st : SegState}
    (h : jsTrim chunk.text = "") : segStep chunk rest st = st := by
  unfold segStep
  rw [if_pos h]

lemma segStep_finalize {chunk : TranscriptChunk} {rest : List TranscriptChunk} {st : SegState}
    (h : jsTrim chunk.text ≠ "") (hc : claimedFinalizeCond chunk rest st) :
    segStep chunk rest st =
      { blocks := st.blocks ++
          [{ text := jsTrim (appendChunk st.currentText (jsTrim chunk.text))
             startTime := st.currentStartTime
             chunkIds := st.currentChunkIds ++ [chunk.id] }]
        currentText := ""
        currentStartTime := nextStartTime rest st.currentStartTime
        currentChunkIds := [] } := by
  have hguard := @appendChunk_jsTrim_ne st.currentText _ h
  simp only [segStep]
  rw [if_neg h]
  split_ifs with hb
  · rfl
  · exfalso
    apply hb
    simp only [Bool.and_eq_true, Bool.or_eq_true, decide_eq_true_eq, List.isEmpty_iff,
      Bool.not_eq_true', beq_eq_false_iff_ne, ne_eq]
    refine ⟨?_, hguard⟩
    rcases hc with h1 | ⟨h30, hor⟩
    · exact Or.inl h1
    · exact Or.inr ⟨h30, by tauto⟩

lemma segStep_accum {chunk : TranscriptChunk} {rest : List TranscriptChunk} {st : SegState}
    (h : jsTrim chunk.text ≠ "") (hc : ¬claimedFinalizeCond chunk rest st) :
    segStep chunk rest st =
      { st with currentText := appendChunk st.currentText (jsTrim chunk.text)
                currentChunkIds := st.currentChunkIds ++ [chunk.id] } := by
  simp only [segStep]
  rw [if_neg h]
  split_ifs with hb
  · exfalso
    apply hc
    simp only [Bool.and_eq_true, Bool.or_eq_true, decide_eq_true_eq, List.isEmpty_iff,
      Bool.not_eq_true', beq_eq_false_iff_ne, ne_eq] at hb
    unfold claimedFinalizeCond
    rcases hb.1 with h1 | ⟨h30, hor⟩
    · exact Or.inl h1
    · exact Or.inr ⟨h30, by tauto⟩
  · rfl

/-- C1: at every loop iteration of `segmentTranscript`, a chunk with
empty or whitespace-only text leaves the running block untouched, and a
non-empty chunk closes the running block and appends it to the output
exactly when, after appending the chunk, it is the last chunk of the
input, or the accumulated word count is at least 30 and at least one of
holds: the accumulated trimmed text ends in one of the three sentence
marks, the word count is at least 120, or at least 5 chunks accumulated. -/
theorem c1_finalize_condition (chunk : TranscriptChunk) (rest : List TranscriptChunk) (st : SegState) :
    (jsTrim chunk.text = "" → segStep chunk rest st = st) ∧
    (jsTrim chunk.text ≠ "" → claimedFinalizeCond chunk rest st →
      segStep chunk rest st =
        { blocks := st.blocks ++
            [{ text := jsTrim (appendChunk st.currentText (jsTrim chunk.text))
               startTime := st.currentStartTime
               chunkIds := st.currentChunkIds ++ [chunk.id] }]
          currentText := ""
          currentStartTime := nextStartTime rest st.currentStartTime
          currentChunkIds := [] }) ∧
    (jsTrim chunk.text ≠ "" → ¬claimedFinalizeCond chunk rest st →
      segStep chunk rest st =
        { st with currentText := appendChunk st.currentText (jsTrim chunk.text)
                  currentChunkIds := st.currentChunkIds ++ [chunk.id] }) :=
  ⟨fun h => segStep_skip h, fun h hc => segStep_finalize h hc, fun h hc => segStep_accum h hc⟩

/-- Witness for C1 at a concrete input: a single final chunk finalizes the
block immediately, and a whitespace chunk is skipped. -/
theorem c1_finalize_condition_witness :
    segStep ⟨"c0", "Hello.", 0⟩ [] ⟨[], "", 0, []⟩ =
      { blocks := [{ text := "Hello.", startTime := 0, chunkIds := ["c0"] }]
        currentText := ""
        currentStartTime := 0
        currentChunkIds := [] } ∧
    segStep ⟨"w0", "   ", 0⟩ [] ⟨[], "", 0, []⟩ = ⟨[], "", 0, []⟩ := by
  constructor
  · have h := (c1_finalize_condition ⟨"c0", "Hello.", 0⟩ [] ⟨[], "", 0, []⟩).2.1
      (by decide) (Or.inl rfl)
    rw [h]
    decide
  · exact (c1_finalize_condition ⟨"w0", "   ", 0⟩ [] ⟨[], "", 0, []⟩).1 (by decide)

/-! ## Claim C7: which chunk determines the startTime of a block -/

lemma appendChunk_ne_empty {cur s : String} (h : jsTrim s ≠ "") :
    appendChunk cur (jsTrim s) ≠ "" := by
  intro h2
  apply @appendChunk_jsTrim_ne cur _ h
  rw [h2]
  exact jsTrim_empty

/-- Concrete input for the C7 counterexample: a whitespace-only chunk at
time 0 followed by a non-empty chunk at time 5. -/
def c7cex : List TranscriptChunk :=
  [{ id := "a", text := "   ", startTime := 0 }, { id := "b", text := "hello.", startTime := 5 }]

/-- C7 counterexample: the single output block contains only chunk b, the
first (and only) non-whitespace chunk, whose startTimeSeconds is 5; yet
the block startTime is 0, inherited from the preceding whitespace-only
chunk a. So a whitespace-only chunk positioned before the first
contributing chunk of a block does determine that block startTime,
refuting the claim. -/
theorem c7_counterexample :
    segmentTranscript c7cex = [{ text := "hello.", startTime := 0, chunkIds := ["b"] }] ∧
    (c7cex.filter fun c => !(jsTrim c.text == "")).map (fun c => c.startTime) = [5] ∧
    (0 : Rat) ≠ 5 := by decide

lemma segLoop_startTime_inv (S : List TranscriptChunk) :
    ∀ (rest : List TranscriptChunk) (st : SegState),
      (∀ c ∈ rest, c ∈ S ∧ jsTrim c.text ≠ "") →
      (∀ b ∈ st.blocks, ∃ c ∈ S, b.chunkIds.head? = some c.id ∧ b.startTime = c.startTime) →
      ((st.currentChunkIds = [] ∧ st.currentText = "" ∧
          (∀ c ∈ rest.head?, st.currentStartTime = c.startTime)) ∨
        (st.currentText ≠ "" ∧
          ∃ c ∈ S, st.currentChunkIds.head? = some c.id ∧ st.currentStartTime = c.startTime)) →
      ∀ b ∈ segLoop rest st, ∃ c ∈ S, b.chunkIds.head? = some c.id ∧ b.startTime = c.startTime
  | [], st, _hrest, hblocks, hcur => by
    intro b hb
    unfold segLoop at hb
    split_ifs at hb with htrim
    · exact hblocks b hb
    · rcases List.mem_append.mp hb with hb1 | hb2
      · exact hblocks b hb1
      · have hbeq : b = ⟨jsTrim st.currentText, st.currentStartTime, st.currentChunkIds⟩ := by
          simpa using hb2
        rcases hcur with ⟨_, hemp, _⟩ | ⟨_, c, hcS, hhead, hstart⟩
        · exact absurd (hemp ▸ jsTrim_empty) htrim
        · exact ⟨c, hcS, by rw [hbeq]; exact ⟨hhead, hstart⟩⟩
  | chunk :: rest, st, hrest, hblocks, hcur => by
    have hchunk := hrest chunk (by simp)
    have hrest2 : ∀ c ∈ rest, c ∈ S ∧ jsTrim c.text ≠ "" := fun c hc => hrest c (by simp [hc])
    show ∀ b ∈ segLoop rest (segStep chunk rest st), _
    by_cases hfc : claimedFinalizeCond chunk rest st
    · rw [segStep_finalize hchunk.2 hfc]
      apply segLoop_startTime_inv S rest _ hrest2
      · intro b hb
        rcases List.mem_append.mp hb with hb1 | hb2
        · exact hblocks b hb1
        · have hbeq : b = ⟨jsTrim (appendChunk st.currentText (jsTrim chunk.text)),
              st.currentStartTime, st.currentChunkIds ++ [chunk.id]⟩ := by
            simpa using hb2
          rcases hcur with ⟨hids, _hemp, hst⟩ | ⟨_, c, hcS, hhead, hstart⟩
          · refine ⟨chunk, hchunk.1, ?_, ?_⟩
            · rw [hbeq]
              simp [hids]
            · rw [hbeq]
              exact hst chunk rfl
          · refine ⟨c, hcS, ?_, ?_⟩
            · rw [hbeq]
              simp only [List.head?_append, hhead]
              rfl
            · rw [hbeq]
              exact hstart
      · left
        refine ⟨rfl, rfl, ?_⟩
        intro c hc
        cases rest with
        | nil => simp at hc
        | cons n ns =>
          have h2 : n = c := by simpa using hc
          rw [← h2]
          rfl
    · rw [segStep_accum hchunk.2 hfc]
      apply segLoop_startTime_inv S rest _ hrest2
      · intro b hb
        exact hblocks b hb
      · right
        constructor
        · exact appendChunk_ne_empty hchunk.2
        · rcases hcur with ⟨hids, _hemp, hst⟩ | ⟨_, c, hcS, hhead, hstart⟩
          · refine ⟨chunk, hchunk.1, ?_, hst chunk rfl⟩
            simp [hids]
          · refine ⟨c, hcS, ?_, hstart⟩
            simp only [List.head?_append, hhead]
            rfl

/-- C7 amended: when every chunk of the input has non-whitespace text,
every block produced by segmentTranscript has startTime equal to the
startTimeSeconds of its first contributing chunk (the chunk whose id
heads the block chunkIds). In general the segmenter takes a block
startTime from the chunk immediately following the previously finalized
block (or from the first chunk of the input), and that chunk may be
whitespace-only, in which case a whitespace-only chunk positioned before
the block first contributing chunk does determine the block startTime. -/
theorem c7_block_start_time (chunks : List TranscriptChunk)
    (h : ∀ c ∈ chunks, jsTrim c.text ≠ "") :
    ∀ b ∈ segmentTranscript chunks,
      ∃ c ∈ chunks, b.chunkIds.head? = some c.id ∧ b.startTime = c.startTime := by
  cases chunks with
  | nil => intro b hb; simp [segmentTranscript] at hb
  | cons c cs =>
    apply segLoop_startTime_inv (c :: cs) (c :: cs)
    · exact fun x hx => ⟨hx, h x hx⟩
    · intro b hb
      simp at hb
    · left
      exact ⟨rfl, rfl, fun x hx => by simp at hx; rw [hx]⟩

/-- Witness for C7 amended at a concrete input with all chunks non-empty. -/
theorem c7_block_start_time_witness :
    (∀ c ∈ [TranscriptChunk.mk "x" "Hi there." 3], jsTrim c.text ≠ "") ∧
    (∀ b ∈ segmentTranscript [TranscriptChunk.mk "x" "Hi there." 3],
      ∃ c ∈ [TranscriptChunk.mk "x" "Hi there." 3],
        b.chunkIds.head? = some c.id ∧ b.startTime = c.startTime) :=
  ⟨by decide, c7_block_start_time _ (by decide)⟩

/-! ## Claim C8: word-count bounds of the semantic segmenter -/

/-- The largest single-chunk word count of the input. -/
def maxChunkWords (chunks : List TranscriptChunk) : Nat :=
  (chunks.map fun c => countWords c.text).foldr max 0

lemma le_maxChunkWords {chunks : List TranscriptChunk} {c : TranscriptChunk} (hc : c ∈ chunks) :
    countWords c.text ≤ maxChunkWords chunks := by
  induction chunks with
  | nil => simp at hc
  | cons x xs ih =>
    rcases List.mem_cons.mp hc with h | h
    · rw [h]
      unfold maxChunkWords
      simp only [List.map_cons, List.foldr_cons]
      exact le_max_left _ _
    · calc countWords c.text ≤ maxChunkWords xs := ih h
        _ ≤ _ := by
          unfold maxChunkWords
          simp only [List.map_cons, List.foldr_cons]
          exact le_max_right _ _

lemma segLoop_nil_of_empty (st : SegState) (h : st.currentText = "") :
    segLoop [] st = st.blocks := by
  unfold segLoop
  rw [h, if_pos jsTrim_empty]

lemma segLoop_min_words :
    ∀ (rest : List TranscriptChunk) (st : SegState),
      (∀ b ∈ st.blocks, MIN_WORDS_PER_BLOCK ≤ countWords b.text) →
      ∀ b ∈ (segLoop rest st).dropLast, MIN_WORDS_PER_BLOCK ≤ countWords b.text
  | [], st, hblocks => by
    intro b hb
    unfold segLoop at hb
    split_ifs at hb with htrim
    · exact hblocks b (List.dropLast_subset _ hb)
    · rw [List.dropLast_concat] at hb
      exact hblocks b hb
  | chunk :: rest, st, hblocks => by
    intro b hb
    simp only [segLoop] at hb
    by_cases hch : jsTrim chunk.text = ""
    · rw [segStep_skip hch] at hb
      exact segLoop_min_words rest st hblocks b hb
    · by_cases hfc : claimedFinalizeCond chunk rest st
      · rw [segStep_finalize hch hfc] at hb
        cases rest with
        | nil =>
          rw [segLoop_nil_of_empty _ rfl, List.dropLast_concat] at hb
          exact hblocks b hb
        | cons n ns =>
          apply segLoop_min_words (n :: ns) _ _ b hb
          intro b2 hb2
          rcases List.mem_append.mp hb2 with h1 | h2
          · exact hblocks b2 h1
          · have hbeq : b2 = ⟨jsTrim (appendChunk st.currentText (jsTrim chunk.text)),
                st.currentStartTime, st.currentChunkIds ++ [chunk.id]⟩ := by
              simpa using h2
            rw [hbeq]
            rcases hfc with hnil | ⟨h30, _⟩
            · exact absurd hnil (by simp)
            · simpa [countWords_jsTrim] using h30
      · rw [segStep_accum hch hfc] at hb
        refine segLoop_min_words rest _ ?_ b hb
        intro b2 hb2
        exact hblocks b2 hb2

lemma segLoop_max_words (W : Nat) :
    ∀ (rest : List TranscriptChunk) (st : SegState),
      (∀ c ∈ rest, countWords c.text ≤ W) →
      countWords st.currentText < MAX_WORDS_PER_BLOCK →
      (∀ b ∈ st.blocks, countWords b.text < MAX_WORDS_PER_BLOCK + W) →
      ∀ b ∈ segLoop rest st, countWords b.text < MAX_WORDS_PER_BLOCK + W
  | [], st, _hrest, hcur, hblocks => by
    intro b hb
    unfold segLoop at hb
    split_ifs at hb with htrim
    · exact hblocks b hb
    · rcases List.mem_append.mp hb with h1 | h2
      · exact hblocks b h1
      · have hbeq : b = ⟨jsTrim st.currentText, st.currentStartTime, st.currentChunkIds⟩ := by
          simpa using h2
        rw [hbeq]
        show countWords (jsTrim st.currentText) < _
        rw [countWords_jsTrim]
        omega
  | chunk :: rest, st, hrest, hcur, hblocks => by
    intro b hb
    simp only [segLoop] at hb
    have hchW : countWords chunk.text ≤ W := hrest chunk (by simp)
    have hrest2 : ∀ c ∈ rest, countWords c.text ≤ W := fun c hc => hrest c (by simp [hc])
    by_cases hch : jsTrim chunk.text = ""
    · rw [segStep_skip hch] at hb
      exact segLoop_max_words W rest st hrest2 hcur hblocks b hb
    · have htW : countWords (appendChunk st.currentText (jsTrim chunk.text)) =
          countWords st.currentText + countWords chunk.text := by
        rw [countWords_appendChunk, countWords_jsTrim]
      by_cases hfc : claimedFinalizeCond chunk rest st
      · rw [segStep_finalize hch hfc] at hb
        refine segLoop_max_words W rest _ hrest2 ?_ ?_ b hb
        · show countWords "" < MAX_WORDS_PER_BLOCK
          decide
        · intro b2 hb2
          rcases List.mem_append.mp hb2 with h1 | h2
          · exact hblocks b2 h1
          · have hbeq : b2 = ⟨jsTrim (appendChunk st.currentText (jsTrim chunk.text)),
                st.currentStartTime, st.currentChunkIds ++ [chunk.id]⟩ := by
              simpa using h2
            rw [hbeq]
            show countWords (jsTrim (appendChunk st.currentText (jsTrim chunk.text))) < _
            rw [countWords_jsTrim, htW]
            omega
      · rw [segStep_accum hch hfc] at hb
        refine segLoop_max_words W rest _ hrest2 ?_ ?_ b hb
        · show countWords (appendChunk st.currentText (jsTrim chunk.text)) < MAX_WORDS_PER_BLOCK
          by_contra hge
          apply hfc
          right
          have h120 : MAX_WORDS_PER_BLOCK ≤
              countWords (appendChunk st.currentText (jsTrim chunk.text)) := not_lt.mp hge
          have hminmax : MIN_WORDS_PER_BLOCK ≤ MAX_WORDS_PER_BLOCK := by decide
          exact ⟨le_trans hminmax h120, Or.inr (Or.inl h120)⟩
        · exact fun b2 hb2 => hblocks b2 hb2

/-- Concrete input for the C8 counterexample: a 119-word chunk without
sentence punctuation followed by a 2-word chunk. -/
def c8cex : List TranscriptChunk :=
  [{ id := "a", text := String.intercalate " " (List.replicate 119 "w"), startTime := 0 },
   { id := "b", text := "w w", startTime := 1 }]

set_option maxRecDepth 10000 in
/-- C8 counterexample: the segmenter emits a single block of 121 words,
built from two chunks of 119 and 2 words; the block word count exceeds
120 although no single chunk of the input exceeds 120 words and the block
is not a single oversized chunk. This refutes the claim that a closing
can pass 120 words only when a single chunk alone exceeds 120 words. -/
theorem c8_counterexample :
    (segmentTranscript c8cex).map (fun b => countWords b.text) = [121] ∧
    (segmentTranscript c8cex).map (fun b => b.chunkIds.length) = [2] ∧
    c8cex.map (fun c => countWords c.text) = [119, 2] ∧
    MAX_WORDS_PER_BLOCK < 121 := by decide

/-- C8 amended: every block emitted by segmentTranscript except possibly
the last has word count at least 30; and a closing is never delayed past
120 words in the sense that the accumulated word count strictly below 120
before each append: consequently every block word count stays below
120 plus the largest single-chunk word count of the input (a block can
exceed 120 words exactly by the contribution of its final chunk, which
need not itself exceed 120 words). -/
theorem c8_segment_bounds (chunks : List TranscriptChunk) :
    (∀ b ∈ (segmentTranscript chunks).dropLast, MIN_WORDS_PER_BLOCK ≤ countWords b.text) ∧
    (∀ b ∈ segmentTranscript chunks,
      countWords b.text < MAX_WORDS_PER_BLOCK + maxChunkWords chunks) := by
  constructor
  · cases chunks with
    | nil => intro b hb; simp [segmentTranscript] at hb
    | cons c cs =>
      apply segLoop_min_words
      intro b hb
      simp at hb
  · cases chunks with
    | nil => intro b hb; simp [segmentTranscript] at hb
    | cons c cs =>
      apply segLoop_max_words
      · intro x hx
        exact le_maxChunkWords hx
      · show countWords "" < MAX_WORDS_PER_BLOCK
        decide
      · intro b hb
        simp at hb

/-- Witness for C8 amended at a concrete input: the single produced block
satisfies the upper word-count bound. -/
theorem c8_segment_bounds_witness :
    countWords "One two." < MAX_WORDS_PER_BLOCK + maxChunkWords [TranscriptChunk.mk "a" "One two." 0] :=
  (c8_segment_bounds [TranscriptChunk.mk "a" "One two." 0]).2
    ⟨"One two.", 0, ["a"]⟩ (by decide)

/-! ## Claim C9: fixed-count segmentation arithmetic -/

lemma segGo_spec (k : Nat) (hk : 1 ≤ k) : ∀ l : List TranscriptChunk,
    (∀ g ∈ chunkGroups k l, jsTrim (String.intercalate " " (g.map fun c => jsTrim c.text)) ≠ "") →
    (segmentByChunkCountGo k l).length = (l.length + k - 1) / k ∧
    (∀ b ∈ (segmentByChunkCountGo k l).dropLast, b.chunkIds.length = k) ∧
    (∀ b ∈ segmentByChunkCountGo k l, b.chunkIds.length ≤ k)
  | [], _ => by
    refine ⟨?_, ?_, ?_⟩
    · simp only [segmentByChunkCountGo, List.length_nil]
      rw [Nat.div_eq_of_lt (by omega)]
    · intro b hb
      simp [segmentByChunkCountGo] at hb
    · intro b hb
      simp [segmentByChunkCountGo] at hb
  | c :: cs, hH => by
    have hg0 : jsTrim (String.intercalate " "
        ((c :: cs.take (k - 1)).map fun x => jsTrim x.text)) ≠ "" := by
      apply hH
      rw [chunkGroups]
      exact List.mem_cons_self _ _
    have hH2 : ∀ g ∈ chunkGroups k (cs.drop (k - 1)),
        jsTrim (String.intercalate " " (g.map fun x => jsTrim x.text)) ≠ "" := by
      intro g hg
      apply hH
      rw [chunkGroups]
      exact List.mem_cons_of_mem _ hg
    have ih := segGo_spec k hk (cs.drop (k - 1)) hH2
    have hunf : segmentByChunkCountGo k (c :: cs) =
        { text := jsTrim (String.intercalate " " ((c :: cs.take (k - 1)).map fun x => jsTrim x.text))
          startTime := c.startTime
          chunkIds := (c :: cs.take (k - 1)).map (·.id) } ::
          segmentByChunkCountGo k (cs.drop (k - 1)) := by
      rw [segmentByChunkCountGo]
      simp only [if_neg hg0]
    refine ⟨?_, ?_, ?_⟩
    · rw [hunf, List.length_cons, ih.1]
      simp only [List.length_drop, List.length_cons]
      rcases Nat.lt_or_ge cs.length (k - 1) with hlt | hge
      · have h1 : cs.length - (k - 1) = 0 := by omega
        have h2 : cs.length + 1 + k - 1 = cs.length + k := by omega
        rw [h1, h2, Nat.add_div_right _ (show 0 < k by omega)]
        rw [Nat.div_eq_of_lt (show 0 + k - 1 < k by omega),
          Nat.div_eq_of_lt (show cs.length < k by omega)]
      · have h1 : cs.length - (k - 1) + k - 1 = cs.length := by omega
        have h2 : cs.length + 1 + k - 1 = cs.length + k := by omega
        rw [h1, h2, Nat.add_div_right _ (by omega)]
    · rw [hunf]
      intro b hb
      by_cases hrest : segmentByChunkCountGo k (cs.drop (k - 1)) = []
      · rw [hrest] at hb
        simp at hb
      · rw [List.dropLast_cons_of_ne_nil hrest] at hb
        rcases List.mem_cons.mp hb with hbeq | hb2
        · have hdrop : ¬cs.length ≤ k - 1 := by
            intro hle
            apply hrest
            rw [List.drop_eq_nil_iff.mpr hle]
            simp [segmentByChunkCountGo]
          rw [hbeq]
          simp only [List.length_map, List.length_cons, List.length_take]
          omega
        · exact ih.2.1 b hb2
    · rw [hunf]
      intro b hb
      rcases List.mem_cons.mp hb with hbeq | hb2
      · rw [hbeq]
        simp only [List.length_map, List.length_cons, List.length_take]
        omega
      · exact ih.2.2 b hb2
termination_by l => l.length
decreasing_by
  simp only [List.length_cons, List.length_drop]
  omega

/-- C9 counterexample: a single whitespace-only chunk with block size 1
yields zero blocks, not ceil(1/1) = 1 blocks: a group whose joined
trimmed text is empty is dropped, refuting the unconditional count. -/
theorem c9_counterexample :
    segmentByChunkCount [TranscriptChunk.mk "a" " " 0] 1 = [] ∧
    (1 + 1 - 1) / 1 = 1 := by
  constructor
  · simp +decide [segmentByChunkCount, segmentByChunkCountGo]
  · rfl

/-- C9 amended: for block size k at least 1, and provided every group of
up to k consecutive chunks has non-empty joined trimmed text (groups with
whitespace-only text are dropped by the source), segmentByChunkCount
returns exactly ceil(n/k) blocks, every block except possibly the last
carries exactly k chunk ids, and every block carries at most k. -/
theorem c9_fixed_count_arithmetic (chunks : List TranscriptChunk) (k : Nat) (hk : 1 ≤ k)
    (hne : ∀ g ∈ chunkGroups k chunks,
      jsTrim (String.intercalate " " (g.map fun c => jsTrim c.text)) ≠ "") :
    (segmentByChunkCount chunks k).length = (chunks.length + k - 1) / k ∧
    (∀ b ∈ (segmentByChunkCount chunks k).dropLast, b.chunkIds.length = k) ∧
    (∀ b ∈ segmentByChunkCount chunks k, b.chunkIds.length ≤ k) := by
  cases chunks with
  | nil =>
    refine ⟨?_, ?_, ?_⟩
    · simp only [segmentByChunkCount, List.isEmpty_nil, if_true, List.length_nil]
      rw [Nat.div_eq_of_lt (by omega)]
    · intro b hb
      simp [segmentByChunkCount] at hb
    · intro b hb
      simp [segmentByChunkCount] at hb
  | cons c cs =>
    have h1 : segmentByChunkCount (c :: cs) k = segmentByChunkCountGo k (c :: cs) := by
      simp [segmentByChunkCount]
    rw [h1]
    exact segGo_spec k hk (c :: cs) hne

/-- Input for the C9 witness: seven one-word chunks. -/
def c9w : List TranscriptChunk :=
  [⟨"c0", "One", 0⟩, ⟨"c1", "Two", 1⟩, ⟨"c2", "Three", 2⟩, ⟨"c3", "Four", 3⟩,
   ⟨"c4", "Five", 4⟩, ⟨"c5", "Six", 5⟩, ⟨"c6", "Seven", 6⟩]

/-- Witness for C9 amended: seven chunks with block size 3 give
ceil(7/3) = 3 blocks of chunk-id sizes 3, 3, 1. -/
theorem c9_fixed_count_arithmetic_witness :
    (1 ≤ 3 ∧ ∀ g ∈ chunkGroups 3 c9w,
      jsTrim (String.intercalate " " (g.map fun c => jsTrim c.text)) ≠ "") ∧
    ((segmentByChunkCount c9w 3).length = (c9w.length + 3 - 1) / 3 ∧
      (∀ b ∈ (segmentByChunkCount c9w 3).dropLast, b.chunkIds.length = 3) ∧
      (∀ b ∈ segmentByChunkCount c9w 3, b.chunkIds.length ≤ 3)) :=
  ⟨⟨by decide, by simp +decide [chunkGroups, c9w]⟩,
    c9_fixed_count_arithmetic c9w 3 (by decide) (by simp +decide [chunkGroups, c9w])⟩

/-! ## The JavaScript value model and JSON.parse (platform primitives used
by the extractor in src/unnamed/part_002) -/

/-- A JSON number as produced by the parser model: an unnormalized decimal
mantissa and power-of-ten exponent (the value is mantissa times ten to the
exponent). JavaScript doubles are modelled exactly on the decimal literals
arising here; no verified property depends on binary rounding. -/
structure JsNumber where
  mantissa : Int
  exponent : Int
deriving DecidableEq

/-- A parsed JavaScript value, the result type of the JSON.parse model. -/
inductive JsValue where
  | null
  | bool (b : Bool)
  | num (n : JsNumber)
  | str (s : String)
  | arr (elems : List JsValue)
  | obj (fields : List (String × JsValue))

/-- Models number-to-string conversion for the values arising here
(integer mantissas print plainly, scaled ones in exponent notation; the
exact JavaScript float formatting is not needed by any claim). -/
def jsNumToString (n : JsNumber) : String :=
  if n.exponent = 0 then toString n.mantissa
  else toString n.mantissa ++ "e" ++ toString n.exponent

mutual
/-- Models the JavaScript String(x) conversion on parsed JSON values. -/
def jsToString : JsValue → String
  | .null => "null"
  | .bool b => if b then "true" else "false"
  | .num n => jsNumToString n
  | .str s => s
  | .arr xs => jsToStringList xs
  | .obj _ => "[object Object]"

/-- Models Array.prototype.toString: elements joined with commas. -/
def jsToStringList : List JsValue → String
  | [] => ""
  | [x] => jsToString x
  | x :: y :: xs => jsToString x ++ "," ++ jsToStringList (y :: xs)
end

/-- Models String.prototype.toLowerCase (ASCII range, as used here). -/
def jsLower (s : String) : String :=
  String.mk (s.data.map Char.toLower)

/-- Helper for the substring test: does the first list lead the second. -/
def leadingEq : List Char → List Char → Bool
  | [], _ => true
  | _ :: _, [] => false
  | a :: as, b :: bs => a == b && leadingEq as bs

def strIncludesAux (needle : List Char) : List Char → Bool
  | [] => needle.isEmpty
  | c :: cs => leadingEq needle (c :: cs) || strIncludesAux needle cs

/-- Models String.prototype.includes. -/
def strIncludes (hay needle : String) : Bool :=
  strIncludesAux needle.data hay.data

/-- The whitespace accepted between JSON tokens. -/
def jsonWsChar (c : Char) : Bool :=
  c == ' ' || c == '\t' || c == '\n' || c == '\r'

def skipWs : List Char → List Char
  | [] => []
  | c :: cs => if jsonWsChar c then skipWs cs else c :: cs

def digitsToNat (ds : List Char) : Nat :=
  ds.foldl (fun n c => n * 10 + (c.toNat - 48)) 0

def isHexDigit (c : Char) : Bool :=
  c.isDigit || (('a' ≤ c && c ≤ 'f') || ('A' ≤ c && c ≤ 'F'))

def hexVal (c : Char) : Nat :=
  if c.isDigit then c.toNat - 48
  else if 'a' ≤ c && c ≤ 'f' then c.toNat - 87
  else c.toNat - 55

/-- Models JSON string-literal reading: the characters up to the closing
quote, with the standard escapes, and the remaining input. -/
def parseStringLit : List Char → Except String (List Char × List Char)
  | [] => .error "Unterminated string in JSON"
  | '"' :: rest => .ok ([], rest)
  | '\\' :: rest =>
    match rest with
    | [] => .error "Unterminated string in JSON"
    | 'u' :: h1 :: h2 :: h3 :: h4 :: cs =>
      if isHexDigit h1 && isHexDigit h2 && isHexDigit h3 && isHexDigit h4 then do
        let code := ((hexVal h1 * 16 + hexVal h2) * 16 + hexVal h3) * 16 + hexVal h4
        let (s, r) ← parseStringLit cs
        pure (Char.ofNat code :: s, r)
      else .error "Bad Unicode escape in JSON"
    | e :: cs =>
      let repl : Except String Char :=
        if e == '"' then .ok '"'
        else if e == '\\' then .ok '\\'
        else if e == '/' then .ok '/'
        else if e == 'b' then .ok (Char.ofNat 8)
        else if e == 'f' then .ok (Char.ofNat 12)
        else if e == 'n' then .ok '\n'
        else if e == 'r' then .ok '\r'
        else if e == 't' then .ok '\t'
        else .error "Bad escaped character in JSON"
      do
        let c ← repl
        let (s, r) ← parseStringLit cs
        pure (c :: s, r)
  | c :: rest => do
    let (s, r) ← parseStringLit rest
    pure (c :: s, r)

/-- Models JSON number reading: optional minus, digits, optional fraction
and exponent, as an exact decimal. -/
def parseNumber (cs : List Char) : Except String (JsNumber × List Char) :=
  let signAndRest : Bool × List Char :=
    match cs with
    | '-' :: t => (true, t)
    | _ => (false, cs)
  let neg := signAndRest.1
  let cs1 := signAndRest.2
  let intDigits := cs1.takeWhile Char.isDigit
  if intDigits.isEmpty then .error "Unexpected token in JSON"
  else
    let cs2 := cs1.drop intDigits.length
    let fracStep : Except String (List Char × List Char) :=
      match cs2 with
      | '.' :: t =>
        let fd := t.takeWhile Char.isDigit
        if fd.isEmpty then .error "Expected digits after decimal point in JSON"
        else .ok (fd, t.drop fd.length)
      | _ => .ok ([], cs2)
    match fracStep with
    | .error e => .error e
    | .ok (fracDigits, cs3) =>
      let expStep : Except String (Int × List Char) :=
        match cs3 with
        | 'e' :: t =>
          let esignAndRest : Bool × List Char :=
            match t with
            | '+' :: t2 => (false, t2)
            | '-' :: t2 => (true, t2)
            | _ => (false, t)
          let ed := esignAndRest.2.takeWhile Char.isDigit
          if ed.isEmpty then .error "Expected digits in JSON exponent"
          else .ok ((if esignAndRest.1 then -(digitsToNat ed : Int) else (digitsToNat ed : Int)),
            esignAndRest.2.drop ed.length)
        | 'E' :: t =>
          let esignAndRest : Bool × List Char :=
            match t with
            | '+' :: t2 => (false, t2)
            | '-' :: t2 => (true, t2)
            | _ => (false, t)
          let ed := esignAndRest.2.takeWhile Char.isDigit
          if ed.isEmpty then .error "Expected digits in JSON exponent"
          else .ok ((if esignAndRest.1 then -(digitsToNat ed : Int) else (digitsToNat ed : Int)),
            esignAndRest.2.drop ed.length)
        | _ => .ok ((0 : Int), cs3)
      match expStep with
      | .error e => .error e
      | .ok (expVal, cs4) =>
        let digits : Int := (digitsToNat (intDigits ++ fracDigits) : Int)
        let mantissa : Int := if neg then -digits else digits
        .ok ({ mantissa := mantissa, exponent := expVal - (fracDigits.length : Int) }, cs4)

mutual
/-- Models JSON.parse value reading; the fuel argument only bounds the
recursion and is set from the input length, which every recursive step
consumes from. Duplicate object keys are kept in order and resolved to
the last one on lookup, as JSON.parse does. -/
def parseValue : Nat → List Char → Except String (JsValue × List Char)
  | 0, _ => .error "Depth limit exceeded while parsing JSON"
  | fuel + 1, cs =>
    match skipWs cs with
    | [] => .error "Unexpected end of JSON input"
    | '{' :: rest =>
      (match skipWs rest with
      | '}' :: rest2 => .ok (.obj [], rest2)
      | other => parseMembers fuel other [])
    | '[' :: rest =>
      (match skipWs rest with
      | ']' :: rest2 => .ok (.arr [], rest2)
      | other => parseElements fuel other [])
    | '"' :: rest => do
      let (sChars, rest2) ← parseStringLit rest
      pure (.str (String.mk sChars), rest2)
    | 't' :: 'r' :: 'u' :: 'e' :: rest => .ok (.bool true, rest)
    | 'f' :: 'a' :: 'l' :: 's' :: 'e' :: rest => .ok (.bool false, rest)
    | 'n' :: 'u' :: 'l' :: 'l' :: rest => .ok (.null, rest)
    | other => do
      let (q, rest) ← parseNumber other
      pure (.num q, rest)

def parseElements (fuel : Nat) (cs : List Char) (acc : List JsValue) :
    Except String (JsValue × List Char) :=
  match fuel with
  | 0 => .error "Depth limit exceeded while parsing JSON"
  | fuel + 1 => do
    let (v, rest) ← parseValue fuel cs
    match skipWs rest with
    | ',' :: rest2 => parseElements fuel rest2 (acc ++ [v])
    | ']' :: rest2 => pure (.arr (acc ++ [v]), rest2)
    | _ => .error "Expected comma or closing bracket in JSON array"

def parseMembers (fuel : Nat) (cs : List Char) (acc : List (String × JsValue)) :
    Except String (JsValue × List Char) :=
  match fuel with
  | 0 => .error "Depth limit exceeded while parsing JSON"
  | fuel + 1 =>
    match skipWs cs with
    | '"' :: rest => do
      let (keyChars, rest2) ← parseStringLit rest
      match skipWs rest2 with
      | ':' :: rest3 => do
        let (v, rest4) ← parseValue fuel rest3
        (match skipWs rest4 with
        | ',' :: rest5 => parseMembers fuel rest5 (acc ++ [(String.mk keyChars, v)])
        | '}' :: rest5 => pure (.obj (acc ++ [(String.mk keyChars, v)]), rest5)
        | _ => .error "Expected comma or closing brace in JSON object")
      | _ => .error "Expected colon in JSON object"
    | _ => .error "Expected string key in JSON object"
end

/-- Models the JavaScript built-in JSON.parse on the inputs arising here;
an error value carries the message of the thrown SyntaxError. -/
def jsonParse (s : String) : Except String JsValue := do
  let (v, rest) ← parseValue (s.length + 1) s.data
  if (skipWs rest).isEmpty then pure v
  else .error "Unexpected non-whitespace character after JSON"

/-! ## The extractor response parser (parseJsonResponse in src/unnamed/part_002) -/

/-- Embeds the `ExtractedPrediction` interface; the two union-typed fields
are strings at runtime and are modelled as strings constrained by the
normalization. -/
structure ExtractedPrediction where
  claim : String
  asset : Option String
  horizonMonths : Option JsNumber
  confidence : String
  predictionType : String
deriving DecidableEq

/-- Models JavaScript truthiness of a parsed JSON value. -/
def jsTruthy : JsValue → Bool
  | .null => false
  | .bool b => b
  | .num n => n.mantissa != 0
  | .str s => s != ""
  | .arr _ => true
  | .obj _ => true

/-- Property lookup on parsed object fields; the last duplicate wins, as
with JSON.parse. -/
def lookupField (fields : List (String × JsValue)) (key : String) : Option JsValue :=
  (fields.reverse.find? fun kv => kv.1 == key).map (fun kv => kv.2)

/-- Models JavaScript property access p.key on a parsed JSON value:
objects yield the property value or undefined (modelled as none),
property access on null throws a TypeError, and the other values carry
none of the accessed keys. -/
def getProp : JsValue → String → Except String (Option JsValue)
  | .null, key => .error ("Cannot read properties of null (reading " ++ key ++ ")")
  | .obj fields, key => .ok (lookupField fields key)
  | _, _ => .ok none

/-- Models the JavaScript expression x || d on a possibly-undefined field
value: undefined and falsy values fall back to the default. -/
def jsOrDefault (v : Option JsValue) (d : JsValue) : JsValue :=
  match v with
  | some x => if jsTruthy x then x else d
  | none => d

/-- Embeds `validateConfidence` from the extractor. -/
def validateConfidence (value : String) : String :=
  let normalized := jsTrim (jsLower value)
  if normalized = "low" ∨ normalized = "medium" ∨ normalized = "high" then normalized
  else "medium"

/-- Embeds `validatePredictionType` from the extractor. -/
def validatePredictionType (value : String) : String :=
  let normalized := jsTrim (jsLower value)
  if normalized = "price" ∨ normalized = "direction" ∨ normalized = "relative performance" ∨
      normalized = "macro" then normalized
  else "direction"

/-- Embeds the element normalization of `parseJsonResponse`: the body of
`parsed.map(...)`, with the property accesses of the record in source
order (an access on a null element throws, caught by the enclosing try). -/
def normalizeRecord (p : JsValue) : Except String ExtractedPrediction := do
  let claimV ← getProp p "claim"
  let assetV ← getProp p "asset"
  let horizonV ← getProp p "horizonMonths"
  let confV ← getProp p "confidence"
  let typeV ← getProp p "predictionType"
  pure
    { claim := jsToString (jsOrDefault claimV (.str ""))
      asset :=
        match assetV with
        | some a => if jsTruthy a then some (jsToString a) else none
        | none => none
      horizonMonths :=
        match horizonV with
        | some (.num n) => some n
        | _ => none
      confidence := validateConfidence (jsToString (jsOrDefault confV (.str "medium")))
      predictionType := validatePredictionType (jsToString (jsOrDefault typeV (.str "direction"))) }

/-- Models text.match(/\[[\s\S]*\]/): the greedy match spans from the
first left bracket to the last right bracket when the latter comes after
the former. -/
def extractJsonSpan (text : String) : Option String :=
  match text.data.findIdx? (· == '['), text.data.reverse.findIdx? (· == ']') with
  | some i, some r =>
    let j := text.data.length - 1 - r
    if i < j then some (String.mk ((text.data.drop i).take (j - i + 1))) else none
  | _, _ => none

/-- Embeds the try block of `parseJsonResponse` applied to the matched
span, with the catch that rethrows under a Failed-to-parse prefix. -/
def parseSpanPredictions (span : String) : Except String (List ExtractedPrediction) :=
  match (do
    let parsed ← jsonParse span
    let xs ← (match parsed with
      | JsValue.arr xs => pure xs
      | _ => .error "Response is not an array" : Except String (List JsValue))
    let preds ← xs.mapM normalizeRecord
    pure (preds.filter fun p => 0 < (jsTrim p.claim).length) :
      Except String (List ExtractedPrediction)) with
  | .ok v => .ok v
  | .error e => .error ("Failed to parse JSON: " ++ e)

/-- Embeds `parseJsonResponse` from the extractor. -/
def parseJsonResponse (text : String) : Except String (List ExtractedPrediction) :=
  match extractJsonSpan text with
  | none =>
    if strIncludes (jsLower text) "no prediction" || strIncludes (jsLower text) "[]" ||
        jsTrim text = "[]" then
      .ok []
    else
      .error "No JSON array found in response"
  | some span => parseSpanPredictions span

/-! ## Claim C3: normalization performed by parseJsonResponse -/

/-- Modelled from the specification wording, for comparison with the
source normalizer: claim coerced to string with empty default, asset
coerced to string-or-null, horizonMonths kept only when already numeric,
confidence lower-cased and trimmed then validated against the three
levels with default medium, predictionType validated against the four
kinds with default direction. -/
def specNormalizeRecord (p : JsValue) : Except String ExtractedPrediction := do
  let claimV ← getProp p "claim"
  let assetV ← getProp p "asset"
  let horizonV ← getProp p "horizonMonths"
  let confV ← getProp p "confidence"
  let typeV ← getProp p "predictionType"
  pure
    { claim := jsToString (jsOrDefault claimV (.str ""))
      asset :=
        match assetV with
        | some a => if jsTruthy a then some (jsToString a) else none
        | none => none
      horizonMonths :=
        match horizonV with
        | some (.num n) => some n
        | _ => none
      confidence :=
        if jsTrim (jsLower (jsToString (jsOrDefault confV (.str "medium")))) ∈
            (["low", "medium", "high"] : List String) then
          jsTrim (jsLower (jsToString (jsOrDefault confV (.str "medium"))))
        else "medium"
      predictionType :=
        if jsTrim (jsLower (jsToString (jsOrDefault typeV (.str "direction")))) ∈
            (["price", "direction", "relative performance", "macro"] : List String) then
          jsTrim (jsLower (jsToString (jsOrDefault typeV (.str "direction"))))
        else "direction" }

/-- Modelled from the specification wording: normalize every record and
drop the predictions whose trimmed claim is empty. -/
def specNormalizeList (xs : List JsValue) : Except String (List ExtractedPrediction) := do
  let preds ← xs.mapM specNormalizeRecord
  pure (preds.filter fun p => jsTrim p.claim ≠ "")

lemma except_bind_congr {α β : Type} {x : Except String α} {f g : α → Except String β}
    (h : ∀ a, f a = g a) : x >>= f = x >>= g := by
  cases x with
  | error e => rfl
  | ok a => exact h a

lemma validateConfidence_mem (v : String) :
    validateConfidence v =
      (if jsTrim (jsLower v) ∈ (["low", "medium", "high"] : List String) then jsTrim (jsLower v)
       else "medium") := by
  unfold validateConfidence
  simp only [List.mem_cons, List.not_mem_nil, or_false]

lemma validatePredictionType_mem (v : String) :
    validatePredictionType v =
      (if jsTrim (jsLower v) ∈
          (["price", "direction", "relative performance", "macro"] : List String) then
        jsTrim (jsLower v)
       else "direction") := by
  unfold validatePredictionType
  simp only [List.mem_cons, List.not_mem_nil, or_false]

lemma normalizeRecord_eq_spec (p : JsValue) : normalizeRecord p = specNormalizeRecord p := by
  unfold normalizeRecord specNormalizeRecord
  apply except_bind_congr
  intro claimV
  apply except_bind_congr
  intro assetV
  apply except_bind_congr
  intro horizonV
  apply except_bind_congr
  intro confV
  apply except_bind_congr
  intro typeV
  refine congrArg pure ?_
  rw [validateConfidence_mem, validatePredictionType_mem]

lemma string_pos_iff_ne (s : String) : 0 < s.length ↔ s ≠ "" := by
  constructor
  · intro h heq
    rw [heq] at h
    exact Nat.lt_irrefl 0 h
  · intro h
    rcases Nat.eq_zero_or_pos s.length with h0 | hp
    · exfalso
      apply h
      cases s with
      | mk data =>
        have : data.length = 0 := h0
        have hd : data = [] := List.length_eq_zero.mp this
        rw [hd]
    · exact hp

lemma filter_claim_eq (preds : List ExtractedPrediction) :
    (preds.filter fun p => 0 < (jsTrim p.claim).length) =
      (preds.filter fun p => jsTrim p.claim ≠ "") := by
  apply List.filter_congr
  intro p _
  rw [decide_eq_decide]
  exact string_pos_iff_ne (jsTrim p.claim)

lemma parseSpanPredictions_of_array {span : String} {vs : List JsValue}
    (hparse : jsonParse span = .ok (JsValue.arr vs)) :
    parseSpanPredictions span =
      match specNormalizeList vs with
      | .ok l => .ok l
      | .error e => .error ("Failed to parse JSON: " ++ e) := by
  unfold parseSpanPredictions
  rw [hparse]
  have hdo : (do
      let xs ← (pure vs : Except String (List JsValue))
      let preds ← xs.mapM normalizeRecord
      pure (preds.filter fun p => 0 < (jsTrim p.claim).length) :
        Except String (List ExtractedPrediction)) = specNormalizeList vs := by
    show (do
      let preds ← vs.mapM normalizeRecord
      pure (preds.filter fun p => 0 < (jsTrim p.claim).length) :
        Except String (List ExtractedPrediction)) = specNormalizeList vs
    unfold specNormalizeList
    rw [funext normalizeRecord_eq_spec]
    apply except_bind_congr
    intro preds
    rw [filter_claim_eq]
  rw [← hdo]
  rfl

/-- C3: for every response text containing a bracketed JSON array of
records, parseJsonResponse normalizes each record exactly as described:
claim coerced to string with empty default, asset string-or-null,
horizonMonths kept only for numeric values, confidence lower-cased and
trimmed with fallback medium outside the set low, medium, high,
predictionType with fallback direction outside the set price, direction,
relative performance, macro, and records with empty trimmed claim
dropped; in particular the one-field example yields exactly one
prediction with asset null, horizonMonths null, confidence medium and
predictionType direction. -/
theorem c3_parse_normalization :
    (∀ (text span : String) (vs : List JsValue),
      extractJsonSpan text = some span →
      jsonParse span = .ok (JsValue.arr vs) →
      parseJsonResponse text =
        match specNormalizeList vs with
        | .ok l => .ok l
        | .error e => .error ("Failed to parse JSON: " ++ e)) ∧
    parseJsonResponse "[\x7b\"claim\":\"Market will go up\"\x7d]" =
      .ok [{ claim := "Market will go up", asset := none, horizonMonths := none,
             confidence := "medium", predictionType := "direction" }] := by
  constructor
  · intro text span vs hspan hparse
    unfold parseJsonResponse
    rw [hspan]
    exact parseSpanPredictions_of_array hparse
  · rfl

/-- Witness for C3 at the concrete example from the claim. -/
theorem c3_parse_normalization_witness :
    (extractJsonSpan "[\x7b\"claim\":\"Market will go up\"\x7d]" =
        some "[\x7b\"claim\":\"Market will go up\"\x7d]" ∧
      jsonParse "[\x7b\"claim\":\"Market will go up\"\x7d]" =
        .ok (.arr [.obj [("claim", .str "Market will go up")]])) ∧
    parseJsonResponse "[\x7b\"claim\":\"Market will go up\"\x7d]" =
      match specNormalizeList [.obj [("claim", .str "Market will go up")]] with
      | .ok l => .ok l
      | .error e => .error ("Failed to parse JSON: " ++ e) :=
  ⟨⟨by rfl, by rfl⟩,
    c3_parse_normalization.1 "[\x7b\"claim\":\"Market will go up\"\x7d]"
      "[\x7b\"claim\":\"Market will go up\"\x7d]"
      [.obj [("claim", .str "Market will go up")]] (by rfl) (by rfl)⟩

/-! ## Claim C2: retry and backoff of extractPredictionsFromBlock -/

/-- Embeds the `ExtractionResult` interface. -/
structure ExtractionResult where
  blockIndex : Nat
  startTime : Rat
  chunkIds : List String
  transcriptText : String
  predictions : List ExtractedPrediction
  error : Option String
deriving DecidableEq

/-- Embeds the retry loop of `extractPredictionsFromBlock`. The model
collaborator maps the attempt index to the outcome of
`model.generateContent` followed by `.response.text()` (an error value is
a thrown exception, whose message the catch reads); the composition with
`parseJsonResponse` under one bind embeds the single try block around
both the call and the parse. Returns the loop outcome (predictions on
success, the error message text after exhaustion, computed from the last
error with the Max-retries fallback for a missing or empty message) and
the list of backoff sleeps performed, in order. The rate-limit waits of
`enforceRateLimit` are process-global state and are not part of this
list. -/
def extractRetryLoop (modelCall : Nat → Except String String) :
    Nat → Nat → Option String →
      Option (List ExtractedPrediction) × Option String × List Nat
  | 0, _attempt, lastError =>
    (none,
      some (match lastError with
        | some m => if m = "" then "Max retries exceeded" else m
        | none => "Max retries exceeded"),
      [])
  | remaining + 1, attempt, lastError =>
    match modelCall attempt >>= parseJsonResponse with
    | .ok preds => (some preds, none, [])
    | .error e =>
      let backoffMs := min (1000 * 2 ^ attempt) 10000
      let r := extractRetryLoop modelCall remaining (attempt + 1) (some e)
      (r.1, r.2.1, backoffMs :: r.2.2)

/-- Embeds `extractPredictionsFromBlock`: the missing-key early return,
then the retry loop over `retries` attempts starting at attempt 0 with no
recorded error. The lastError discusssed above is threaded through the
loop state. -/
def extractPredictionsFromBlock (modelCall : Nat → Except String String) (geminiKeySet : Bool)
    (block : SegmentedBlock) (blockIndex : Nat) (retries : Nat := 3) :
    ExtractionResult × List Nat :=
  let base : ExtractionResult :=
    { blockIndex := blockIndex, startTime := block.startTime, chunkIds := block.chunkIds,
      transcriptText := block.text, predictions := [], error := none }
  if !geminiKeySet then
    ({ base with error := some "GEMINI_API_KEY environment variable is not set" }, [])
  else
    match extractRetryLoop modelCall retries 0 none with
    | (some preds, _err, sleeps) => ({ base with predictions := preds }, sleeps)
    | (none, err, sleeps) => ({ base with error := err }, sleeps)

lemma extractRetryLoop_cons_ok {m : Nat → Except String String} {remaining attempt : Nat}
    {lastError : Option String} {preds : List ExtractedPrediction}
    (h : m attempt >>= parseJsonResponse = .ok preds) :
    extractRetryLoop m (remaining + 1) attempt lastError = (some preds, none, []) := by
  simp only [extractRetryLoop]
  rw [h]

lemma extractRetryLoop_cons_error {m : Nat → Except String String} {remaining attempt : Nat}
    {lastError : Option String} {e : String}
    (h : m attempt >>= parseJsonResponse = .error e) :
    extractRetryLoop m (remaining + 1) attempt lastError =
      ((extractRetryLoop m remaining (attempt + 1) (some e)).1,
        (extractRetryLoop m remaining (attempt + 1) (some e)).2.1,
        min (1000 * 2 ^ attempt) 10000 ::
          (extractRetryLoop m remaining (attempt + 1) (some e)).2.2) := by
  simp only [extractRetryLoop]
  rw [h]

lemma extractRetryLoop_congr (m1 m2 : Nat → Except String String) :
    ∀ (remaining attempt : Nat) (lastError : Option String),
      (∀ a, attempt ≤ a → a < attempt + remaining →
        (m1 a >>= parseJsonResponse) = (m2 a >>= parseJsonResponse)) →
      extractRetryLoop m1 remaining attempt lastError =
        extractRetryLoop m2 remaining attempt lastError
  | 0, _, _, _ => rfl
  | remaining + 1, attempt, lastError, h => by
    have hh := h attempt (le_refl _) (by omega)
    cases hc : m2 attempt >>= parseJsonResponse with
    | ok preds =>
      rw [extractRetryLoop_cons_ok (hh.trans hc), extractRetryLoop_cons_ok hc]
    | error e =>
      rw [extractRetryLoop_cons_error (hh.trans hc), extractRetryLoop_cons_error hc,
        extractRetryLoop_congr m1 m2 remaining (attempt + 1) (some e)
          (fun a ha1 ha2 => h a (by omega) (by omega))]

lemma extractRetryLoop_allFail (m : Nat → Except String String) (msgs : Nat → String) :
    ∀ (remaining attempt : Nat) (lastError : Option String),
      1 ≤ remaining →
      (∀ a, attempt ≤ a → a < attempt + remaining →
        (m a >>= parseJsonResponse) = .error (msgs a)) →
      extractRetryLoop m remaining attempt lastError =
        (none,
          some (if msgs (attempt + remaining - 1) = "" then "Max retries exceeded"
            else msgs (attempt + remaining - 1)),
          (List.range' attempt remaining).map fun a => min (1000 * 2 ^ a) 10000)
  | 0, _, _, hr, _ => absurd hr (by omega)
  | remaining + 1, attempt, lastError, _hr, h => by
    have hh := h attempt (le_refl _) (by omega)
    rw [extractRetryLoop_cons_error hh]
    rcases Nat.eq_zero_or_pos remaining with h0 | hpos
    · subst h0
      have hidx : attempt + 1 - 1 = attempt := by omega
      rw [hidx]
      simp [extractRetryLoop, List.range']
    · rw [extractRetryLoop_allFail m msgs remaining (attempt + 1) (some (msgs attempt)) hpos
        (fun a ha1 ha2 => h a (by omega) (by omega))]
      have hidx : attempt + 1 + remaining - 1 = attempt + (remaining + 1) - 1 := by omega
      have hrange : List.range' attempt (remaining + 1) =
          attempt :: List.range' (attempt + 1) remaining := by
        simp [List.range']
      rw [hidx, hrange]
      simp [List.map_cons]

/-- C2: extractPredictionsFromBlock treats model-call failures and
parse failures identically (its outcome depends only on the composite
call-then-parse outcome of the attempts below `retries`, so at most
`retries` attempts are consulted); and when every attempt fails, it
sleeps min(1000 times 2 to the attempt, 10000) milliseconds after each
failed attempt and returns, not throws, a result with an empty
predictions list and the error field set to the message of the last
failure. -/
theorem c2_retry_and_backoff (block : SegmentedBlock) (blockIndex retries : Nat) :
    (∀ m1 m2 : Nat → Except String String,
      (∀ a, a < retries → (m1 a >>= parseJsonResponse) = (m2 a >>= parseJsonResponse)) →
      extractPredictionsFromBlock m1 true block blockIndex retries =
        extractPredictionsFromBlock m2 true block blockIndex retries) ∧
    (∀ (m : Nat → Except String String) (msgs : Nat → String),
      1 ≤ retries →
      (∀ a, a < retries → (m a >>= parseJsonResponse) = .error (msgs a)) →
      msgs (retries - 1) ≠ "" →
      extractPredictionsFromBlock m true block blockIndex retries =
        ({ blockIndex := blockIndex, startTime := block.startTime, chunkIds := block.chunkIds,
           transcriptText := block.text, predictions := [],
           error := some (msgs (retries - 1)) },
          (List.range retries).map fun attempt => min (1000 * 2 ^ attempt) 10000)) := by
  constructor
  · intro m1 m2 h
    unfold extractPredictionsFromBlock
    rw [extractRetryLoop_congr m1 m2 retries 0 none (fun a _ ha => h a (by omega))]
  · intro m msgs hr h hne
    unfold extractPredictionsFromBlock
    rw [extractRetryLoop_allFail m msgs retries 0 none hr (fun a _ ha => h a (by omega))]
    have hidx : 0 + retries - 1 = retries - 1 := by omega
    rw [hidx, if_neg hne, ← List.range_eq_range']
    rfl

/-- Witness for C2 at a concrete input: three failing attempts sleep
1000, 2000 and 4000 milliseconds and surface the last message. -/
theorem c2_retry_and_backoff_witness :
    ((1 : Nat) ≤ 3 ∧
      (∀ a : Nat, a < 3 →
        (((fun _ => .error "boom" : Nat → Except String String) a >>= parseJsonResponse) =
          .error "boom")) ∧
      ("boom" : String) ≠ "") ∧
    extractPredictionsFromBlock (fun _ => .error "boom") true ⟨"text", 0, ["c1"]⟩ 0 3 =
      ({ blockIndex := 0, startTime := 0, chunkIds := ["c1"], transcriptText := "text",
         predictions := [], error := some "boom" }, [1000, 2000, 4000]) := by
  refine ⟨⟨by decide, fun a _ => rfl, by decide⟩, ?_⟩
  have h := (c2_retry_and_backoff ⟨"text", 0, ["c1"]⟩ 0 3).2 (fun _ => .error "boom")
    (fun _ => "boom") (by decide) (fun a _ => rfl) (by decide)
  rw [h]
  decide

/-! ## Claim C4: extractPredictionsForVideo always advances the flag -/

/-- The statistics record returned by `extractPredictionsForVideo`. -/
structure ExtractVideoStats where
  totalBlocks : Nat
  blocksWithPredictions : Nat
  totalPredictions : Nat
  errors : List String
deriving DecidableEq

/-- One persisted prediction row (the fields written by
`prisma.prediction.create`); the chunk link is the head of the block
chunk-id list. -/
structure PredictionRow where
  videoId : String
  transcriptChunkId : Option String
  timestamp : Rat
  transcriptText : String
  prediction : ExtractedPrediction
deriving DecidableEq

/-- The slice of the store touched by `extractPredictionsForVideo`: the
per-video predictionsExtracted flags and the stored prediction rows. -/
structure PredictionStore where
  predictionsExtracted : String → Bool
  rows : List PredictionRow

/-- Embeds the per-prediction persistence loop: each
`prisma.prediction.create` outcome is supplied by the collaborator
`persistFail` indexed by a running insert counter (none is success, some
message is a caught storage failure appended to the error list). -/
def persistLoop (persistFail : Nat → Option String) (videoId : String) (r : ExtractionResult) :
    List ExtractedPrediction → Nat → ExtractVideoStats → PredictionStore →
      Nat × ExtractVideoStats × PredictionStore
  | [], pIdx, stats, st => (pIdx, stats, st)
  | pred :: rest, pIdx, stats, st =>
    match persistFail pIdx with
    | none =>
      persistLoop persistFail videoId r rest (pIdx + 1) stats
        { st with rows := st.rows ++
            [{ videoId := videoId, transcriptChunkId := r.chunkIds.head?,
               timestamp := r.startTime, transcriptText := r.transcriptText,
               prediction := pred }] }
    | some msg =>
      persistLoop persistFail videoId r rest (pIdx + 1)
        { stats with errors := stats.errors ++ ["Failed to store prediction: " ++ msg] } st

/-- Embeds the block loop of `extractPredictionsForVideo`; the per-block
result of the awaited `extractPredictionsFromBlock` call is supplied by
the collaborator `blockResult` (it depends on the model collaborator).
The error check embeds the truthiness test `if (result.error)`. -/
def extractVideoLoop (blockResult : Nat → SegmentedBlock → ExtractionResult)
    (persistFail : Nat → Option String) (videoId : String) :
    List SegmentedBlock → Nat → Nat → ExtractVideoStats → PredictionStore →
      ExtractVideoStats × PredictionStore
  | [], _i, _pIdx, stats, st => (stats, st)
  | block :: rest, i, pIdx, stats, st =>
    let r := blockResult i block
    if (r.error.getD "") ≠ "" then
      extractVideoLoop blockResult persistFail videoId rest (i + 1) pIdx
        { stats with errors :=
            stats.errors ++ ["Block " ++ toString i ++ ": " ++ (r.error.getD "")] } st
    else if r.predictions.length > 0 then
      let stats2 := { stats with
        blocksWithPredictions := stats.blocksWithPredictions + 1
        totalPredictions := stats.totalPredictions + r.predictions.length }
      let p := persistLoop persistFail videoId r r.predictions pIdx stats2 st
      extractVideoLoop blockResult persistFail videoId rest (i + 1) p.1 p.2.1 p.2.2
    else
      extractVideoLoop blockResult persistFail videoId rest (i + 1) pIdx stats st

/-- Embeds `extractPredictionsForVideo`: process every block, then mark
the video predictionsExtracted unconditionally. -/
def extractPredictionsForVideo (blockResult : Nat → SegmentedBlock → ExtractionResult)
    (persistFail : Nat → Option String) (videoId : String)
    (blocks : List SegmentedBlock) (st : PredictionStore) :
    ExtractVideoStats × PredictionStore :=
  let stats0 : ExtractVideoStats :=
    { totalBlocks := blocks.length, blocksWithPredictions := 0, totalPredictions := 0,
      errors := [] }
  let r := extractVideoLoop blockResult persistFail videoId blocks 0 0 stats0 st
  (r.1,
    { r.2 with predictionsExtracted :=
        fun v => if v = videoId then true else r.2.predictionsExtracted v })

lemma persistLoop_flags (persistFail : Nat → Option String) (videoId : String)
    (r : ExtractionResult) : ∀ (preds : List ExtractedPrediction) (pIdx : Nat)
      (stats : ExtractVideoStats) (st : PredictionStore),
      (persistLoop persistFail videoId r preds pIdx stats st).2.2.predictionsExtracted =
        st.predictionsExtracted ∧
      (persistLoop persistFail videoId r preds pIdx stats st).2.1.totalBlocks =
        stats.totalBlocks
  | [], _, _, _ => ⟨rfl, rfl⟩
  | pred :: rest, pIdx, stats, st => by
    simp only [persistLoop]
    cases persistFail pIdx with
    | none => exact persistLoop_flags persistFail videoId r rest (pIdx + 1) stats _
    | some msg => exact persistLoop_flags persistFail videoId r rest (pIdx + 1) _ st

lemma extractVideoLoop_flags (blockResult : Nat → SegmentedBlock → ExtractionResult)
    (persistFail : Nat → Option String) (videoId : String)
    (blocks : List SegmentedBlock) : ∀ (i pIdx : Nat) (stats : ExtractVideoStats)
      (st : PredictionStore),
      (extractVideoLoop blockResult persistFail videoId blocks i pIdx stats st).2.predictionsExtracted =
        st.predictionsExtracted ∧
      (extractVideoLoop blockResult persistFail videoId blocks i pIdx stats st).1.totalBlocks =
        stats.totalBlocks := by
  induction blocks with
  | nil => intro i pIdx stats st; exact ⟨rfl, rfl⟩
  | cons block rest ih =>
    intro i pIdx stats st
    simp only [extractVideoLoop]
    split_ifs with h1 h2
    · exact ih (i + 1) pIdx _ st
    · constructor
      · rw [(ih (i + 1) _ _ _).1,
          (persistLoop_flags persistFail videoId (blockResult i block)
            (blockResult i block).predictions _ _ _).1]
      · rw [(ih (i + 1) _ _ _).2,
          (persistLoop_flags persistFail videoId (blockResult i block)
            (blockResult i block).predictions _ _ _).2]
    · exact ih (i + 1) pIdx stats st

/-- C4: after extractPredictionsForVideo completes, the flag of the
processed video is true unconditionally, whatever the per-block results
and per-prediction persistence outcomes were; the flags of every other
video are untouched; and the returned stats count all blocks. The
embedding is a total function: per-block and per-prediction failures
only flow into the stats error list and never prevent the flag update. -/
theorem c4_flag_unconditional (blockResult : Nat → SegmentedBlock → ExtractionResult)
    (persistFail : Nat → Option String) (videoId : String)
    (blocks : List SegmentedBlock) (st : PredictionStore) :
    (extractPredictionsForVideo blockResult persistFail videoId blocks st).2.predictionsExtracted =
      (fun v => if v = videoId then true else st.predictionsExtracted v) ∧
    (extractPredictionsForVideo blockResult persistFail videoId blocks st).1.totalBlocks =
      blocks.length := by
  constructor
  · show (fun v => if v = videoId then true
      else (extractVideoLoop blockResult persistFail videoId blocks 0 0 _ st).2.predictionsExtracted v) = _
    rw [(extractVideoLoop_flags blockResult persistFail videoId blocks 0 0 _ st).1]
  · show (extractVideoLoop blockResult persistFail videoId blocks 0 0 _ st).1.totalBlocks = _
    rw [(extractVideoLoop_flags blockResult persistFail videoId blocks 0 0 _ st).2]

/-! ## Transcript fetching (fetchTranscript.ts) and claim C10 -/

/-- Embeds the `TranscriptEntry` interface. -/
structure TranscriptEntry where
  text : String
  startTime : Rat
deriving DecidableEq

/-- Embeds the `FetchTranscriptResult` interface. -/
structure FetchTranscriptResult where
  success : Bool
  videoId : String
  chunksStored : Nat
  error : Option String
  transcriptEntries : Option (List TranscriptEntry)
deriving DecidableEq

/-- One raw caption entry from the youtube-transcript library. -/
structure RawTranscriptEntry where
  text : String
  offset : Rat
  duration : Rat
deriving DecidableEq

/-- Models String.prototype.replace with a global literal pattern:
replace every non-overlapping occurrence, left to right. -/
def replaceSub (needle repl : List Char) : List Char → List Char
  | [] => []
  | c :: cs =>
    if needle ≠ [] ∧ leadingEq needle (c :: cs) = true then
      repl ++ replaceSub needle repl ((c :: cs).drop needle.length)
    else
      c :: replaceSub needle repl cs
termination_by l => l.length
decreasing_by
  · rename_i h
    have h1 : 1 ≤ needle.length := by
      cases needle with
      | nil => exact absurd rfl h.1
      | cons a as => simp
    simp only [List.length_cons, List.length_drop]
    omega
  · simp only [List.length_cons]
    omega

/-- Models s.replace(/needle/g, repl) for the literal patterns used. -/
def jsReplaceAll (s needle repl : String) : String :=
  String.mk (replaceSub needle.data repl.data s.data)

/-- Embeds `normalizeTranscript` from fetchTranscript.ts: HTML-entity
unescaping, newline collapapse, trim, and millisecond-to-second start
times. -/
def normalizeTranscript (raw : List RawTranscriptEntry) : List TranscriptEntry :=
  raw.map fun entry =>
    { text := jsTrim (jsReplaceAll (jsReplaceAll (jsReplaceAll (jsReplaceAll (jsReplaceAll
        (jsReplaceAll entry.text "&amp;" "&") "&lt;" "<") "&gt;" ">") "&quot;" "\"")
        "&#39;" "\x27") "\n" " ")
      startTime := entry.offset / 1000 }

/-- The slice of the store touched by `fetchTranscriptForVideo`: for each
video id, whether the video exists and its transcriptFetched flag, and
its stored transcript chunks. -/
structure TranscriptStore where
  videos : String → Option Bool
  chunks : String → List TranscriptEntry

/-- The external interactions of one `fetchTranscriptForVideo` call: the
outcome of `fetchTranscriptUsingYtApi` (which may throw, return null, or
return a result), the outcome of the youtube-transcript library call, the
outcome of the replace-chunks transaction (none is success), and whether
the flag update inside the catch block fails (that failure is ignored). -/
structure FetchTranscriptDeps where
  ytApiResult : Except String (Option FetchTranscriptResult)
  libTranscript : Except String (List RawTranscriptEntry)
  txFailure : Option String
  markUpdateFails : Bool

/-- The `permanentErrors` list from fetchTranscript.ts. -/
def permanentErrors : List String :=
  ["Transcript is disabled", "Transcripts are disabled", "video does not have transcripts"]

/-- Embeds the inner try block up to the choice of normalized entries:
an error value is a thrown exception; Sum.inl is an early non-throwing
return (empty library transcript); Sum.inr carries the normalized
entries. The condition on the API result embeds
`ytApiResult && ytApiResult.success && ytApiResult.transcriptEntries`
(an empty entries array is truthy). -/
def fetchTranscriptGetNormalized (deps : FetchTranscriptDeps)
    (st : TranscriptStore) (base : FetchTranscriptResult) :
    Except String (Sum (FetchTranscriptResult × TranscriptStore) (List TranscriptEntry)) := do
  let ytApiResult ← deps.ytApiResult
  let useApi : Option (List TranscriptEntry) :=
    match ytApiResult with
    | some r => if r.success then r.transcriptEntries else none
    | none => none
  match useApi with
  | some entries => pure (Sum.inr entries)
  | none => do
    let rawTranscript ← deps.libTranscript
    if rawTranscript.isEmpty then
      pure (Sum.inl ({ base with error := some "No transcript available for this video" }, st))
    else
      pure (Sum.inr (normalizeTranscript rawTranscript))

/-- Embeds the catch block of `fetchTranscriptForVideo`: record the
message, and only when it matches a permanent-unavailability message,
mark the video transcriptFetched (ignoring a failure of that update). -/
def fetchTranscriptCatch (deps : FetchTranscriptDeps) (videoId : String)
    (st : TranscriptStore) (base : FetchTranscriptResult) (e : String) :
    FetchTranscriptResult × TranscriptStore :=
  let result := { base with error := some e }
  if permanentErrors.any (fun msg => strIncludes (jsLower e) (jsLower msg)) then
    match st.videos videoId with
    | some _ =>
      if deps.markUpdateFails then (result, st)
      else (result,
        { st with videos := fun v => if v = videoId then some true else st.videos v })
    | none => (result, st)
  else (result, st)

/-- Embeds `fetchTranscriptForVideo` from fetchTranscript.ts: the
video-not-found and already-fetched early returns, the two transcript
sources, the empty-transcript early returns, the atomic
replace-chunks-and-mark transaction, and the catch-all that never
rethrows, so the function always returns a result and a store. -/
def fetchTranscriptForVideo (deps : FetchTranscriptDeps) (videoId : String)
    (st : TranscriptStore) : FetchTranscriptResult × TranscriptStore :=
  let base : FetchTranscriptResult :=
    { success := false, videoId := videoId, chunksStored := 0, error := none,
      transcriptEntries := none }
  match st.videos videoId with
  | none => ({ base with error := some ("Video not found: " ++ videoId) }, st)
  | some transcriptFetched =>
    if transcriptFetched then
      ({ base with success := true, error := some "Transcript already fetched" }, st)
    else
      match fetchTranscriptGetNormalized deps st base with
      | .error e => fetchTranscriptCatch deps videoId st base e
      | .ok (Sum.inl earlyResult) => earlyResult
      | .ok (Sum.inr normalized) =>
        if normalized.isEmpty then
          ({ base with error := some "Failed to parse transcript entries" }, st)
        else
          match deps.txFailure with
          | some e => fetchTranscriptCatch deps videoId st base e
          | none =>
            ({ base with success := true, chunksStored := normalized.length },
              { st with
                videos := fun v => if v = videoId then some true else st.videos v
                chunks := fun v => if v = videoId then normalized else st.chunks v })

/-- C10: fetchTranscriptForVideo always returns a result (the embedding
is a total function whose catch paths never rethrow); in particular when
the video exists with transcriptFetched already true, it returns
immediately with success true and the error text Transcript already
fetched, leaving the store entirely untouched. -/
theorem c10_already_fetched (deps : FetchTranscriptDeps) (videoId : String)
    (st : TranscriptStore) (h : st.videos videoId = some true) :
    fetchTranscriptForVideo deps videoId st =
      ({ success := true, videoId := videoId, chunksStored := 0,
         error := some "Transcript already fetched", transcriptEntries := none }, st) := by
  unfold fetchTranscriptForVideo
  rw [h]
  rfl

/-- Store for the C10 witness: one video with the flag already set. -/
def c10store : TranscriptStore :=
  { videos := fun v => if v = "vid1" then some true else none
    chunks := fun _ => [] }

/-- Dependencies for the C10 witness. -/
def c10deps : FetchTranscriptDeps :=
  { ytApiResult := .ok none
    libTranscript := .ok []
    txFailure := none
    markUpdateFails := false }

/-- Witness for C10 at a concrete store with the flag already set. -/
theorem c10_already_fetched_witness :
    c10store.videos "vid1" = some true ∧
    fetchTranscriptForVideo c10deps "vid1" c10store =
      ({ success := true, videoId := "vid1", chunksStored := 0,
         error := some "Transcript already fetched", transcriptEntries := none }, c10store) :=
  ⟨rfl, c10_already_fetched c10deps "vid1" c10store rfl⟩

/-! ## The ingestion pipeline (runIngestion.ts) and claim C5 -/

/-- Embeds the `FetchVideosResult` interface of the video collaborator. -/
structure FetchVideosResult where
  videosFound : Nat
  videosInserted : Nat
  videosSkipped : Nat
  errors : List String
deriving DecidableEq

structure VideoFetchStage where
  success : Bool
  videosFound : Nat
  videosInserted : Nat
  videosSkipped : Nat
  errors : List String
deriving DecidableEq

structure TranscriptFetchStage where
  success : Bool
  videosProcessed : Nat
  totalChunks : Nat
  errors : List String
deriving DecidableEq

structure PredictionExtractionStage where
  success : Bool
  videosProcessed : Nat
  totalPredictions : Nat
  errors : List String
deriving DecidableEq

structure PipelineStages where
  videoFetch : VideoFetchStage
  transcriptFetch : TranscriptFetchStage
  predictionExtraction : PredictionExtractionStage
deriving DecidableEq

/-- Embeds the `PipelineResult` interface; the wall-clock fields
totalDurationMs and completedAt are outside the model. -/
structure PipelineResult where
  channelId : String
  creatorId : String
  stages : PipelineStages
deriving DecidableEq

/-- Embeds the `PipelineOptions` interface. -/
structure PipelineOptions where
  maxVideos : Option Nat := none
  skipVideoFetch : Bool := false
  skipTranscriptFetch : Bool := false
  skipPredictionExtraction : Bool := false

/-- The external interactions of one `runIngestionPipeline` call. The
fetchVideos outcome may be an exception (caught by the stage-1 inner
try); the creator lookup result decides the one fatal throw; the
per-video transcript results never throw (their function has its own
catch-all); the per-video extraction outcome is the stats record of
`extractPredictionsForVideo` (its store effects are covered by the C4
embedding; store reads are modelled as total lookups). -/
structure PipelineDeps where
  fetchVideosOutcome : Except String FetchVideosResult
  creator : Option String
  unfetchedVideos : List String
  transcriptResult : String → FetchTranscriptResult
  videosForPrediction : List String
  chunksFor : String → List TranscriptChunk
  extractionOutcome : String → List SegmentedBlock → ExtractVideoStats

/-- Embeds stage 1 of `runIngestionPipeline`, whose inner try catches the
collaborator error locally. -/
def pipelineVideoFetchStage (deps : PipelineDeps) (opts : PipelineOptions) : VideoFetchStage :=
  if opts.skipVideoFetch then
    { success := true, videosFound := 0, videosInserted := 0, videosSkipped := 0, errors := [] }
  else
    match deps.fetchVideosOutcome with
    | .ok r =>
      { success := r.errors.isEmpty, videosFound := r.videosFound,
        videosInserted := r.videosInserted, videosSkipped := r.videosSkipped, errors := r.errors }
    | .error e =>
      { success := false, videosFound := 0, videosInserted := 0, videosSkipped := 0,
        errors := [e] }

/-- Embeds the remainder of the try block of `runIngestionPipeline` after
stage 1: resolve the creator (the only throw reaching the top-level catch
in this model), then run stages 2 and 3; the error checks embed the
truthiness tests of the source. Videos with no chunks are skipped in
stage 3 (their flag update is a store effect covered by the C4
embedding). -/
def pipelineStagesBody (deps : PipelineDeps) (opts : PipelineOptions) (channelId : String) :
    Except String (String × TranscriptFetchStage × PredictionExtractionStage) :=
  match deps.creator with
  | none => .error ("Creator not found for channel: " ++ channelId)
  | some creatorId =>
    let tf : TranscriptFetchStage :=
      if opts.skipTranscriptFetch then
        { success := true, videosProcessed := 0, totalChunks := 0, errors := [] }
      else
        let folded := deps.unfetchedVideos.foldl (fun (acc : TranscriptFetchStage) vid =>
          let r := deps.transcriptResult vid
          if r.success then
            { acc with
                videosProcessed := acc.videosProcessed + 1
                totalChunks := acc.totalChunks + r.chunksStored }
          else if (r.error.getD "") ≠ "" then
            { acc with errors := acc.errors ++ [vid ++ ": " ++ r.error.getD ""] }
          else acc)
          { success := false, videosProcessed := 0, totalChunks := 0, errors := [] }
        { folded with success := true }
    let pe : PredictionExtractionStage :=
      if opts.skipPredictionExtraction then
        { success := true, videosProcessed := 0, totalPredictions := 0, errors := [] }
      else
        let folded := deps.videosForPrediction.foldl
          (fun (acc : PredictionExtractionStage) vid =>
          let chunks := deps.chunksFor vid
          if chunks.isEmpty then acc
          else
            let blocks := segmentTranscript chunks
            let ex := deps.extractionOutcome vid blocks
            { acc with
                videosProcessed := acc.videosProcessed + 1
                totalPredictions := acc.totalPredictions + ex.totalPredictions
                errors := acc.errors ++ ex.errors })
          { success := false, videosProcessed := 0, totalPredictions := 0, errors := [] }
        { folded with success := true }
    .ok (creatorId, tf, pe)

/-- Embeds `runIngestionPipeline`: stage 1, then the guarded stages, with
the top-level catch that attributes an error to the first stage not yet
marked successful (at the only modelled throw point, stage 2 has not yet
been marked successful) and returns the partial result normally. -/
def runIngestionPipeline (deps : PipelineDeps) (opts : PipelineOptions)
    (channelId : String) : PipelineResult :=
  let vf := pipelineVideoFetchStage deps opts
  match pipelineStagesBody deps opts channelId with
  | .ok (creatorId, tf, pe) =>
    { channelId := channelId
      creatorId := creatorId
      stages := { videoFetch := vf, transcriptFetch := tf, predictionExtraction := pe } }
  | .error e =>
    if vf.success then
      { channelId := channelId
        creatorId := ""
        stages :=
          { videoFetch := vf
            transcriptFetch :=
              { success := false, videosProcessed := 0, totalChunks := 0, errors := [e] }
            predictionExtraction :=
              { success := false, videosProcessed := 0, totalPredictions := 0, errors := [] } } }
    else
      { channelId := channelId
        creatorId := ""
        stages :=
          { videoFetch := { vf with errors := vf.errors ++ [e] }
            transcriptFetch :=
              { success := false, videosProcessed := 0, totalChunks := 0, errors := [] }
            predictionExtraction :=
              { success := false, videosProcessed := 0, totalPredictions := 0, errors := [] } } }

/-- Dependencies for the C5 counterexample: the discovery stage succeeds
but no creator record exists. -/
def c5deps : PipelineDeps :=
  { fetchVideosOutcome := .ok
      { videosFound := 1, videosInserted := 1, videosSkipped := 0, errors := [] }
    creator := none
    unfetchedVideos := []
    transcriptResult := fun _ =>
      { success := false, videoId := "", chunksStored := 0, error := none,
        transcriptEntries := none }
    videosForPrediction := []
    chunksFor := fun _ => []
    extractionOutcome := fun _ _ =>
      { totalBlocks := 0, blocksWithPredictions := 0, totalPredictions := 0, errors := [] } }

/-- C5 counterexample: with no creator record, the fatal creator-not-found
error does occur inside the run, yet runIngestionPipeline returns a
normal PipelineResult carrying the message in the transcript-fetch stage
error list: the failure does not surface to the caller as an explicit
failure instead of a normally returned result. -/
theorem c5_counterexample :
    pipelineStagesBody c5deps {} "UCX" = .error "Creator not found for channel: UCX" ∧
    runIngestionPipeline c5deps {} "UCX" =
      { channelId := "UCX", creatorId := ""
        stages :=
          { videoFetch :=
              { success := true, videosFound := 1, videosInserted := 1, videosSkipped := 0,
                errors := [] }
            transcriptFetch :=
              { success := false, videosProcessed := 0, totalChunks := 0,
                errors := ["Creator not found for channel: UCX"] }
            predictionExtraction :=
              { success := false, videosProcessed := 0, totalPredictions := 0,
                errors := [] } } } := by
  exact ⟨by decide, by decide⟩

/-- C5 amended: runIngestionPipeline always returns a PipelineResult and
never throws; when no creator record exists after discovery, the run is
cut short with the creator-not-found error, which the top-level catch
records in the error list of the first stage not yet marked successful
(video fetch if it failed, otherwise transcript fetch), the creatorId
stays empty, and the result is returned normally. -/
theorem c5_no_throw_creator_missing (deps : PipelineDeps) (opts : PipelineOptions)
    (channelId : String) (h : deps.creator = none) :
    pipelineStagesBody deps opts channelId =
      .error ("Creator not found for channel: " ++ channelId) ∧
    (runIngestionPipeline deps opts channelId).creatorId = "" ∧
    ((pipelineVideoFetchStage deps opts).success = true →
      (runIngestionPipeline deps opts channelId).stages.transcriptFetch.errors =
        ["Creator not found for channel: " ++ channelId]) ∧
    ((pipelineVideoFetchStage deps opts).success = false →
      (runIngestionPipeline deps opts channelId).stages.videoFetch.errors =
        (pipelineVideoFetchStage deps opts).errors ++
          ["Creator not found for channel: " ++ channelId]) := by
  have hbody : pipelineStagesBody deps opts channelId =
      .error ("Creator not found for channel: " ++ channelId) := by
    unfold pipelineStagesBody
    rw [h]
  refine ⟨hbody, ?_, ?_, ?_⟩
  · unfold runIngestionPipeline
    rw [hbody]
    by_cases hvf : (pipelineVideoFetchStage deps opts).success <;> simp [hvf]
  · intro hvf
    unfold runIngestionPipeline
    rw [hbody]
    simp [hvf]
  · intro hvf
    unfold runIngestionPipeline
    rw [hbody]
    simp [hvf]

/-- Witness for C5 amended at the concrete dependencies of the
counterexample. -/
theorem c5_no_throw_creator_missing_witness :
    c5deps.creator = none ∧
    (pipelineStagesBody c5deps {} "UCY" =
        .error ("Creator not found for channel: " ++ "UCY") ∧
      (runIngestionPipeline c5deps {} "UCY").creatorId = "" ∧
      ((pipelineVideoFetchStage c5deps {}).success = true →
        (runIngestionPipeline c5deps {} "UCY").stages.transcriptFetch.errors =
          ["Creator not found for channel: " ++ "UCY"]) ∧
      ((pipelineVideoFetchStage c5deps {}).success = false →
        (runIngestionPipeline c5deps {} "UCY").stages.videoFetch.errors =
          (pipelineVideoFetchStage c5deps {}).errors ++
            ["Creator not found for channel: " ++ "UCY"])) :=
  ⟨rfl, c5_no_throw_creator_missing c5deps {} "UCY" rfl⟩

/-! ## Claim C6: the in-process pipeline lock -/

/-- Embeds `isPipelineRunning`; the process-wide Set of running channel
ids is modelled as an explicit list state (Set.add prepends, Set.delete
removes the element). -/
def isPipelineRunning (channelId : String) (runningPipelines : List String) : Bool :=
  channelId ∈ runningPipelines

/-- Embeds `markPipelineRunning`: check-and-insert. -/
def markPipelineRunning (channelId : String) (runningPipelines : List String) :
    Bool × List String :=
  if channelId ∈ runningPipelines then (false, runningPipelines)
  else (true, channelId :: runningPipelines)

/-- Embeds `markPipelineComplete`: Set.delete. -/
def markPipelineComplete (channelId : String) (runningPipelines : List String) : List String :=
  runningPipelines.filter (fun id => id ≠ channelId)

/-- Embeds `runIngestionPipelineWithLock`: refuse with null when the lock
is held, otherwise run and always release in the finally block, whether
the awaited run returns normally or throws (the run outcome is supplied
as a collaborator value so that the finally guarantee is stated for both
cases; the embedded runIngestionPipeline itself always returns). -/
def runIngestionPipelineWithLock (runOutcome : Except String PipelineResult)
    (channelId : String) (runningPipelines : List String) :
    Except String (Option PipelineResult) × List String :=
  match markPipelineRunning channelId runningPipelines with
  | (false, s) => (.ok none, s)
  | (true, s) =>
    let s2 := markPipelineComplete channelId s
    match runOutcome with
    | .ok r => (.ok (some r), s2)
    | .error e => (.error e, s2)

/-- C6: markPipelineRunning returns true and inserts the id exactly when
it is not already present, and returns false leaving the set unchanged
when it is present; and after runIngestionPipelineWithLock acquires the
lock and finishes, whether the underlying run returned normally or threw,
the id has been removed, so a subsequent markPipelineRunning returns
true. -/
theorem c6_lock_mutual_exclusion :
    (∀ (channelId : String) (s : List String),
      (channelId ∈ s → markPipelineRunning channelId s = (false, s)) ∧
      (channelId ∉ s →
        (markPipelineRunning channelId s).1 = true ∧
        channelId ∈ (markPipelineRunning channelId s).2 ∧
        (markPipelineRunning channelId (markPipelineRunning channelId s).2).1 = false)) ∧
    (∀ (runOutcome : Except String PipelineResult) (channelId : String) (s : List String),
      channelId ∉ s →
      channelId ∉ (runIngestionPipelineWithLock runOutcome channelId s).2 ∧
      (markPipelineRunning channelId
        (runIngestionPipelineWithLock runOutcome channelId s).2).1 = true) := by
  constructor
  · intro channelId s
    constructor
    · intro hmem
      unfold markPipelineRunning
      rw [if_pos hmem]
    · intro hmem
      unfold markPipelineRunning
      rw [if_neg hmem]
      refine ⟨rfl, by simp, ?_⟩
      rw [if_pos (by simp)]
  · intro runOutcome channelId s hmem
    have hstate : (runIngestionPipelineWithLock runOutcome channelId s).2 =
        (channelId :: s).filter (fun id => id ≠ channelId) := by
      unfold runIngestionPipelineWithLock markPipelineRunning markPipelineComplete
      rw [if_neg hmem]
      cases runOutcome <;> rfl
    have hnotmem : channelId ∉ (channelId :: s).filter (fun id => id ≠ channelId) := by
      intro hc
      have := List.of_mem_filter hc
      simp at this
    rw [hstate]
    refine ⟨hnotmem, ?_⟩
    unfold markPipelineRunning
    rw [if_neg hnotmem]

/-- Witness for C6 at concrete states: a held lock refuses, a free lock
acquires, and the lock is released after a run that throws. -/
theorem c6_lock_mutual_exclusion_witness :
    (("UC1" : String) ∈ (["UC1"] : List String) →
      markPipelineRunning "UC1" ["UC1"] = (false, ["UC1"])) ∧
    (("UC1" : String) ∉ ([] : List String) →
      ("UC1" : String) ∉ (runIngestionPipelineWithLock (.error "boom") "UC1" []).2 ∧
      (markPipelineRunning "UC1" (runIngestionPipelineWithLock (.error "boom") "UC1" []).2).1 =
        true) :=
  ⟨fun hm => (c6_lock_mutual_exclusion.1 "UC1" ["UC1"]).1 hm,
    fun hm => c6_lock_mutual_exclusion.2 (.error "boom") "UC1" [] hm⟩

end Fintruth
